import Mathlib

/-! Snake game (`snake.h`): a shallow embedding and its verified properties.

The C++ class `SnakeGame` is embedded as a structure with explicit state
passing.  Conventions of the embedding:

* `int` coordinates are `Int`.  The only arithmetic on them is `+ 1`, `- 1`
  and the truncating `%` of C++ (`Int.tmod`); signed overflow is undefined
  behaviour in C++ and no coordinate the game ever stores is near the limits.
* `std::deque<std::pair<int,int>> snake` is a `List`, front (tail of the
  snake) first, back (head of the snake) last.
* `std::multiset<int, std::greater<int>> topScores` is a `List Int` kept in
  descending order.
* `score = snake.size() * 10` converts a `size_t` to `int`; the conversion is
  `sizeToInt`.
* `rand()` is an explicit list of the values the successive calls return;
  a function that calls `rand()` consumes draws from the front of the list
  and hands back the rest.  A rejection loop that has used up the list
  without accepting is reported as `outOfDraws` (resp. `none`).
* `exit(0)` is an explicit outcome.  Rendering and sleeping do not touch the
  game state and are left out.
-/

/-- A board cell, `std::pair<int,int>` read as `(row, col)`. -/
abbrev Position := Int × Int

abbrev BOARD_SIZE : Int := 10
abbrev MAX_TOP_SCORES : Nat := 10
abbrev BASE_DELAY_MS : Int := 500
abbrev MIN_DELAY_MS : Int := 100
abbrev DELAY_REDUCTION_MS : Int := 50
abbrev POISON_CHANCE : Int := 3

abbrev DIR_RIGHT : Char := 'r'
abbrev DIR_LEFT : Char := 'l'
abbrev DIR_UP : Char := 'u'
abbrev DIR_DOWN : Char := 'd'

abbrev PAUSE_KEY : Char := 'x'
abbrev QUIT_KEY : Char := 'q'

/-- The data members of `class SnakeGame`. -/
structure SnakeGame where
  direction : Char
  paused : Bool
  topScores : List Int
  snake : List Position
  food : Position
  poisonFood : Position
  score : Int
  deriving DecidableEq, Repr

/-- What a call of `updateGame` (or of the constructor's loop) ends in. -/
inductive Tick where
  /-- The call returned; `rest` are the draws of `rand()` not yet used. -/
  | returned (g : SnakeGame) (rest : List Nat)
  /-- The call went through `gameOver(reason)`, which ends the process; `saved`
  are the scores `saveScores` writes, one per line. -/
  | gameOver (reason : String) (g : SnakeGame) (saved : List Int)
  /-- The call evaluated `snake.back()` on an empty deque. -/
  | undefinedBack
  /-- A rejection loop was still running when the draws ran out. -/
  | outOfDraws
  deriving DecidableEq, Repr

/-- What a call of `handleInput` ends in. -/
inductive InputResult where
  /-- The call returned. -/
  | returned (g : SnakeGame)
  /-- The quit key: `saveScores(); exit(0);`. -/
  | quit (g : SnakeGame) (saved : List Int)
  deriving DecidableEq, Repr

/-- The conversion of `snake.size() * 10` (a `size_t`) to the `int` member
`score`: reduction modulo `2^32` into the signed range. -/
def sizeToInt (n : Nat) : Int :=
  if n % 4294967296 < 2147483648 then ((n % 4294967296 : Nat) : Int)
  else ((n % 4294967296 : Nat) : Int) - 4294967296

/-- The free function `get_next_head`.  A default-constructed pair is `(0, 0)`,
which is what is returned for a character that is none of the four
directions. -/
def get_next_head (current : Position) (direction : Char) : Position :=
  if direction = DIR_RIGHT then
    (current.1, Int.tmod (current.2 + 1) BOARD_SIZE)
  else if direction = DIR_LEFT then
    (current.1, if current.2 = 0 then BOARD_SIZE - 1 else current.2 - 1)
  else if direction = DIR_DOWN then
    (Int.tmod (current.1 + 1) BOARD_SIZE, current.2)
  else if direction = DIR_UP then
    (if current.1 = 0 then BOARD_SIZE - 1 else current.1 - 1, current.2)
  else
    (0, 0)

/-- The member function `SnakeGame::getNextHead` (it reads no data member). -/
def SnakeGame.getNextHead (_g : SnakeGame) (current : Position) (dir : Char) : Position :=
  if dir = DIR_RIGHT then
    (current.1, Int.tmod (current.2 + 1) BOARD_SIZE)
  else if dir = DIR_LEFT then
    (current.1, if current.2 = 0 then BOARD_SIZE - 1 else current.2 - 1)
  else if dir = DIR_DOWN then
    (Int.tmod (current.1 + 1) BOARD_SIZE, current.2)
  else if dir = DIR_UP then
    (if current.1 = 0 then BOARD_SIZE - 1 else current.1 - 1, current.2)
  else
    (0, 0)

/-- The loop of `generateFood`: draw `(rand() % BOARD_SIZE, rand() % BOARD_SIZE)`
until the cell is not on the snake.  The first of the two draws is taken for the
row; C++ leaves the order of the two calls open, and every statement below is
about all lists of draws. -/
def SnakeGame.generateFood : SnakeGame → List Nat → Option (SnakeGame × List Nat)
  | g, a :: b :: rest =>
    let g1 := { g with food := (Int.tmod (a : Int) BOARD_SIZE, Int.tmod (b : Int) BOARD_SIZE) }
    if g1.food ∈ g1.snake then SnakeGame.generateFood g1 rest else some (g1, rest)
  | _, _ => none

/-- The loop of `generatePoisonFood`: draw a cell until it is not the case that
the cell is on the snake and equal to the food. -/
def SnakeGame.generatePoisonFood : SnakeGame → List Nat → Option (SnakeGame × List Nat)
  | g, a :: b :: rest =>
    let g1 := { g with poisonFood := (Int.tmod (a : Int) BOARD_SIZE, Int.tmod (b : Int) BOARD_SIZE) }
    if g1.poisonFood ∈ g1.snake ∧ g1.poisonFood = g1.food then
      SnakeGame.generatePoisonFood g1 rest
    else some (g1, rest)
  | _, _ => none

/-- The method `std::multiset<int, std::greater<int>>::insert`: the new value goes
in front of the first strictly smaller one. -/
def multisetInsert (x : Int) : List Int → List Int
  | [] => [x]
  | e :: rest => if x > e then x :: e :: rest else e :: multisetInsert x rest

/-- The loop of `saveScores`, with its counter. -/
def saveScoresLoop : List Int → Nat → List Int
  | [], _ => []
  | score :: rest, count =>
    if count = MAX_TOP_SCORES then [] else score :: saveScoresLoop rest (count + 1)

/-- The scores `saveScores` writes to the file, one per line, when the file
opens. -/
def SnakeGame.saveScores (g : SnakeGame) : List Int :=
  saveScoresLoop g.topScores 0

/-- The function `gameOver`: record the score, save, and end the process. -/
def SnakeGame.gameOver (g : SnakeGame) (reason : String) : Tick :=
  let g1 := { g with topScores := multisetInsert g.score g.topScores }
  Tick.gameOver reason g1 g1.saveScores

/-- The constructor `SnakeGame::SnakeGame()`; `scores` is the ledger that
`loadScores` has read. -/
def SnakeGame.ctor (scores : List Int) (rs : List Nat) : Option (SnakeGame × List Nat) :=
  let g : SnakeGame :=
    { direction := DIR_RIGHT, paused := false, topScores := scores,
      snake := [(0, 0)], food := (0, 0), poisonFood := (0, 0), score := 0 }
  match g.generateFood rs with
  | none => none
  | some (g1, rest) => some ({ g1 with poisonFood := (-1, -1) }, rest)

/-- The local `std::map<char, char> keymap` of `handleInput`. -/
def keymap : List (Char × Char) :=
  [('d', DIR_RIGHT), ('a', DIR_LEFT), ('w', DIR_UP), ('s', DIR_DOWN)]

/-- The method `handleInput`. -/
def SnakeGame.handleInput (g : SnakeGame) (input : Char) : InputResult :=
  match keymap.lookup input with
  | some newDirection =>
    if ¬ (g.direction = DIR_RIGHT ∧ newDirection = DIR_LEFT) ∧
       ¬ (g.direction = DIR_LEFT ∧ newDirection = DIR_RIGHT) ∧
       ¬ (g.direction = DIR_UP ∧ newDirection = DIR_DOWN) ∧
       ¬ (g.direction = DIR_DOWN ∧ newDirection = DIR_UP) then
      InputResult.returned { g with direction := newDirection }
    else
      InputResult.returned g
  | none =>
    if input = PAUSE_KEY then
      InputResult.returned { g with paused := !g.paused }
    else if input = QUIT_KEY then
      InputResult.quit g g.saveScores
    else
      InputResult.returned g

/-- The method `updateGame`: one tick. -/
def SnakeGame.updateGame (g : SnakeGame) (rs : List Nat) : Tick :=
  if g.paused then
    Tick.returned g rs
  else
    match g.snake.getLast? with
    | none => Tick.undefinedBack
    | some back =>
      let head := g.getNextHead back g.direction
      let g1 := { g with score := sizeToInt (g.snake.length * 10) }
      if head ∈ g1.snake then
        g1.gameOver "You hit yourself!"
      else if head = g1.food then
        match g1.generateFood rs with
        | none => Tick.outOfDraws
        | some (g2, rs2) =>
          match rs2 with
          | [] => Tick.outOfDraws
          | r :: rs3 =>
            if Int.tmod (r : Int) POISON_CHANCE = 0 then
              match g2.generatePoisonFood rs3 with
              | none => Tick.outOfDraws
              | some (g3, rs4) => Tick.returned { g3 with snake := g3.snake ++ [head] } rs4
            else
              Tick.returned { g2 with poisonFood := (-1, -1), snake := g2.snake ++ [head] } rs3
      else if head = g1.poisonFood then
        g1.gameOver "You ate poisonous food!"
      else
        Tick.returned { g1 with snake := (g1.snake ++ [head]).tail } rs

/-- The opposite of a direction in the spec's words: Right and Left swap, Up
and Down swap. -/
def opposite (d : Char) : Char :=
  if d = DIR_RIGHT then DIR_LEFT
  else if d = DIR_LEFT then DIR_RIGHT
  else if d = DIR_UP then DIR_DOWN
  else if d = DIR_DOWN then DIR_UP
  else d

/-- The four direction characters. -/
def directions : List Char := [DIR_RIGHT, DIR_LEFT, DIR_UP, DIR_DOWN]

/-- A cell of the `BOARD_SIZE` by `BOARD_SIZE` grid (the test of
`isValidPosition`). -/
def inGrid (p : Position) : Prop :=
  0 ≤ p.1 ∧ p.1 < BOARD_SIZE ∧ 0 ≤ p.2 ∧ p.2 < BOARD_SIZE

instance (p : Position) : Decidable (inGrid p) := by
  unfold inGrid; infer_instance

/-! ## Definitions used by the statements -/

/-- The cell `updateGame` computes as the next head: `getNextHead(snake.back(),
direction)`. -/
def SnakeGame.nextHead (g : SnakeGame) (back : Position) : Position :=
  g.getNextHead back g.direction

/-- The state after the assignment `score = snake.size() * 10`. -/
def SnakeGame.scored (g : SnakeGame) : SnakeGame :=
  { g with score := sizeToInt (g.snake.length * 10) }

/-- A one-segment snake at `(0, 0)` heading Right with the food at `(5, 5)`: the
state the constructor builds on an empty ledger when the first draws are
`5, 5`. -/
def oneSegment : SnakeGame :=
  { direction := DIR_RIGHT, paused := false, topScores := [], snake := [(0, 0)],
    food := (5, 5), poisonFood := (-1, -1), score := 0 }

/-- The snake `[(0,0),(0,1)]` heading Right with the food at `(0, 2)`. -/
def twoSegments : SnakeGame :=
  { direction := DIR_RIGHT, paused := false, topScores := [], snake := [(0, 0), (0, 1)],
    food := (0, 2), poisonFood := (-1, -1), score := 10 }

/-- The snake `[(0,0),(0,1)]` heading Right with food and poison food both at
`(0, 2)`. -/
def foodIsPoison : SnakeGame :=
  { twoSegments with poisonFood := (0, 2) }

/-- The snake `[(0,0),(0,1)]` heading Right with the poison food at `(0, 2)` and
the food elsewhere. -/
def poisonAhead : SnakeGame :=
  { twoSegments with food := (5, 5), poisonFood := (0, 2) }

/-- The state the eating tick of `twoSegments` returns on the draws `[5, 5, 1]`. -/
def afterEating : SnakeGame :=
  { direction := DIR_RIGHT, paused := false, topScores := [],
    snake := [(0, 0), (0, 1), (0, 2)], food := (5, 5), poisonFood := (-1, -1), score := 20 }

/-- The four keys of `keymap`. -/
def directionKeys : List Char := ['d', 'a', 'w', 's']

/-- The states a run goes through: the state the constructor builds, and from a
state of the run the state left by a call of `handleInput` that returns or by a
tick of `updateGame` that returns, for any key and any draws. -/
inductive Reachable : SnakeGame → Prop where
  | init (scores : List Int) (rs : List Nat) (g : SnakeGame) (rest : List Nat)
      (h : SnakeGame.ctor scores rs = some (g, rest)) : Reachable g
  | input (g : SnakeGame) (c : Char) (g' : SnakeGame)
      (hr : Reachable g) (h : g.handleInput c = InputResult.returned g') : Reachable g'
  | tick (g : SnakeGame) (rs : List Nat) (g' : SnakeGame) (rest : List Nat)
      (hr : Reachable g) (h : g.updateGame rs = Tick.returned g' rest) : Reachable g'

/-- The invariant of a run: the direction is one of the four, the snake is
non-empty, has no cell twice and lies inside the grid. -/
def SnakeGame.wellFormed (g : SnakeGame) : Prop :=
  g.direction ∈ directions ∧ g.snake ≠ [] ∧ g.snake.Nodup ∧ ∀ p ∈ g.snake, inGrid p

/-- One step of a run: a key handed to `handleInput`, or a tick of `updateGame`
on the given draws. -/
inductive Event where
  | input (c : Char)
  | tick (draws : List Nat)
  deriving DecidableEq, Repr

/-- The directions the non-paused ticks of a run use to compute the next head,
in order.  The run stops where the process exits. -/
def tickDirections : SnakeGame → List Event → List Char
  | _, [] => []
  | g, Event.input c :: es =>
    match g.handleInput c with
    | InputResult.returned g' => tickDirections g' es
    | InputResult.quit _ _ => []
  | g, Event.tick draws :: es =>
    match g.updateGame draws with
    | Tick.returned g' _ => (if g.paused then [] else [g.direction]) ++ tickDirections g' es
    | Tick.gameOver _ _ _ => [g.direction]
    | Tick.undefinedBack => []
    | Tick.outOfDraws => []

/-- The method `calculateDelay`.  The product `(snake.size() / 10) *
DELAY_REDUCTION_MS` is formed in `size_t` and converted to the `int`
`reduction`. -/
def SnakeGame.calculateDelay (g : SnakeGame) : Int :=
  let reduction := sizeToInt ((g.snake.length / 10) * DELAY_REDUCTION_MS.toNat)
  max MIN_DELAY_MS (BASE_DELAY_MS - reduction)

/-- The state after the eating tick of `twoSegments` on the draws `[0, 2, 1]`:
the new food is the cell just eaten. -/
def foodUnderHead : SnakeGame :=
  { afterEating with food := (0, 2) }

/-- The keys `handleInput` reacts to. -/
def recognizedKeys : List Char := ['w', 'a', 's', 'd', PAUSE_KEY, QUIT_KEY]

/-- White space as `operator>>` skips it (`std::isspace` in the "C" locale):
space, `\t`, `\n`, `\v`, `\f`, `\r`. -/
def isSpace (c : Char) : Bool :=
  c.toNat = 32 || (9 ≤ c.toNat && c.toNat ≤ 13)

/-- A decimal digit. -/
def isDigit (c : Char) : Bool :=
  48 ≤ c.toNat && c.toNat ≤ 57

/-- The value of a decimal digit. -/
def digitValue (c : Char) : Nat :=
  c.toNat - 48

/-- The character of a digit below ten. -/
def digitChar (d : Nat) : Char :=
  Char.ofNat (48 + d)

/-- The digits at the front of the text, accumulated into a number, and the text
after them. -/
def readDigits : List Char → Nat → Nat × List Char
  | [], acc => (acc, [])
  | c :: cs, acc =>
    if isDigit c then readDigits cs (acc * 10 + digitValue c) else (acc, c :: cs)

/-- The digits of an unsigned number must begin at once; the value and the rest
of the text, or `none` when the text does not begin with a digit. -/
def readNat : List Char → Option (Nat × List Char)
  | [] => none
  | c :: cs => if isDigit c then some (readDigits (c :: cs) 0) else none

/-- The extraction `infile >> score` for an `int`: skip white space, read an
optional sign and the digits that follow.  The result is the value and the text
left in the stream, or `none` when the extraction fails (no digits, or a value
outside `int`), which ends the loop of `loadScores`. -/
def extractInt (text : List Char) : Option (Int × List Char) :=
  match text.dropWhile isSpace with
  | '-' :: cs =>
    match readNat cs with
    | some (n, rest) => if n ≤ 2147483648 then some (-(n : Int), rest) else none
    | none => none
  | '+' :: cs =>
    match readNat cs with
    | some (n, rest) => if n < 2147483648 then some ((n : Int), rest) else none
    | none => none
  | cs =>
    match readNat cs with
    | some (n, rest) => if n < 2147483648 then some ((n : Int), rest) else none
    | none => none

/-- The loop `while (infile >> score) { if (score >= 0) topScores.insert(score); }`
of `loadScores`.  Every extraction that succeeds takes at least one character, so
`fuel` above the length of the text is never used up. -/
def loadScoresLoop : Nat → List Char → List Int → List Int
  | 0, _, topScores => topScores
  | fuel + 1, text, topScores =>
    match extractInt text with
    | none => topScores
    | some (score, rest) =>
      loadScoresLoop fuel rest (if score ≥ 0 then multisetInsert score topScores else topScores)

/-- The method `loadScores`; `file` is the text of `scores.txt`, or `none` when
the file cannot be opened. -/
def SnakeGame.loadScores (g : SnakeGame) (file : Option (List Char)) : SnakeGame :=
  match file with
  | none => g
  | some text => { g with topScores := loadScoresLoop (text.length + 1) text g.topScores }

/-- The decimal digits of a number, most significant first, as `operator<<`
prints them; `fuel` above the number is never used up. -/
def natDigits : Nat → Nat → List Char
  | 0, _ => []
  | fuel + 1, n =>
    if n < 10 then [digitChar n] else natDigits fuel (n / 10) ++ [digitChar (n % 10)]

/-- The text `outfile << score` writes for an `int`. -/
def printInt (v : Int) : List Char :=
  if v < 0 then '-' :: natDigits (v.natAbs + 1) v.natAbs else natDigits (v.natAbs + 1) v.natAbs

/-- The text of the lines `outfile << score << "\n"` for the given scores. -/
def scoreLines : List Int → List Char
  | [] => []
  | score :: rest => printInt score ++ '\n' :: scoreLines rest

/-- The text `saveScores` leaves in the file when the file opens. -/
def SnakeGame.saveScoresText (g : SnakeGame) : List Char :=
  scoreLines g.saveScores

/-- The ledger after the given scores have been inserted one after the other. -/
def insertAll (scores : List Int) (topScores : List Int) : List Int :=
  scores.foldl (fun top score => multisetInsert score top) topScores

/-- The text does not go on with a digit. -/
def noDigitAhead (text : List Char) : Prop :=
  ∀ c cs, text = c :: cs → isDigit c = false

/-- A ledger in descending order, as the multiset `topScores` keeps it. -/
def descending (l : List Int) : Prop :=
  l.Pairwise (fun a b => b ≤ a)

instance (l : List Int) : Decidable (descending l) := by
  unfold descending; infer_instance

/-- The text of a file of entries: each entry is a number as `operator<<` prints
it, followed by its separator. -/
def entriesText : List (Int × List Char) → List Char
  | [] => []
  | (v, sep) :: rest => printInt v ++ (sep ++ entriesText rest)

/-- The non-negative values among the entries, in file order. -/
def acceptedScores (entries : List (Int × List Char)) : List Int :=
  (entries.map Prod.fst).filter (fun v => decide (0 ≤ v))

/-- A game whose ledger holds eleven scores. -/
def elevenScores : SnakeGame :=
  { oneSegment with topScores := [110, 100, 90, 80, 70, 60, 50, 40, 30, 20, 10] }

/-- The cells of the board, row by row. -/
def gridCells : List Position :=
  (List.range 10).flatMap
    (fun (r : Nat) => (List.range 10).map (fun (c : Nat) => (Int.ofNat r, Int.ofNat c)))

/-- The state inside the eating tick of `twoSegments` after `generateFood` has
accepted the draws `5, 5`: the score is assigned, the food is new, the head is
not yet appended. -/
def afterFoodDrawn : SnakeGame :=
  { twoSegments with food := (5, 5), score := 20 }

/-- The state after the eating tick of the snake `[(1, 0)]` heading Right onto
the food `(1, 1)`, on the draws `1, 1, 1`: the new food is the cell just
eaten. -/
def foodUnderHeadSame : SnakeGame :=
  { oneSegment with food := (1, 1), snake := [(1, 0), (1, 1)], score := 10 }

/-! # Theorems -/

/-! ## Grid arithmetic -/

theorem tmod_board (x : Int) (h : 0 ≤ x) : Int.tmod x 10 = x % 10 :=
  Int.tmod_eq_emod h (by decide)

theorem getNextHead_eq (g : SnakeGame) (p : Position) (d : Char) :
    g.getNextHead p d = get_next_head p d := rfl

theorem mem_directions (d : Char) :
    d ∈ directions ↔ d = 'r' ∨ d = 'l' ∨ d = 'u' ∨ d = 'd' := by
  simp [directions, DIR_RIGHT, DIR_LEFT, DIR_UP, DIR_DOWN]

theorem get_next_head_right (r c : Int) (hc : 0 ≤ c) :
    get_next_head (r, c) 'r' = (r, (c + 1) % 10) := by
  simp [get_next_head, DIR_RIGHT, BOARD_SIZE, tmod_board (c + 1) (by omega)]

theorem get_next_head_left (r c : Int) :
    get_next_head (r, c) 'l' = (r, if c = 0 then 9 else c - 1) := by
  simp [get_next_head, DIR_RIGHT, DIR_LEFT, BOARD_SIZE]

theorem get_next_head_down (r c : Int) (hr : 0 ≤ r) :
    get_next_head (r, c) 'd' = ((r + 1) % 10, c) := by
  simp [get_next_head, DIR_RIGHT, DIR_LEFT, DIR_DOWN, BOARD_SIZE,
    tmod_board (r + 1) (by omega)]

theorem get_next_head_up (r c : Int) :
    get_next_head (r, c) 'u' = (if r = 0 then 9 else r - 1, c) := by
  simp [get_next_head, DIR_RIGHT, DIR_LEFT, DIR_DOWN, DIR_UP, BOARD_SIZE]

theorem get_next_head_inGrid (p : Position) (d : Char) (hp : inGrid p)
    (hd : d ∈ directions) : inGrid (get_next_head p d) := by
  obtain ⟨r, c⟩ := p
  simp only [inGrid, BOARD_SIZE] at hp ⊢
  obtain ⟨h1, h2, h3, h4⟩ := hp
  rcases (mem_directions d).1 hd with rfl | rfl | rfl | rfl
  · rw [get_next_head_right r c h3]; dsimp only; omega
  · rw [get_next_head_left]; dsimp only; split <;> omega
  · rw [get_next_head_up]; dsimp only; split <;> omega
  · rw [get_next_head_down r c h1]; dsimp only; omega

/-- C8. Toroidal step: on a cell `(r, c)` of the grid `get_next_head` returns
`(r, (c+1) mod 10)` for Right, `(r, 9 if c = 0 else c-1)` for Left,
`((r+1) mod 10, c)` for Down and `(9 if r = 0 else r-1, c)` for Up; it wraps at
each of the four edges, leaves the other coordinate alone, and its result is
again a cell of the grid. -/
theorem get_next_head_toroidal (r c : Int) (hr0 : 0 ≤ r) (hr : r < BOARD_SIZE)
    (hc0 : 0 ≤ c) (hc : c < BOARD_SIZE) :
    get_next_head (r, c) DIR_RIGHT = (r, (c + 1) % 10) ∧
    get_next_head (r, c) DIR_LEFT = (r, if c = 0 then 9 else c - 1) ∧
    get_next_head (r, c) DIR_DOWN = ((r + 1) % 10, c) ∧
    get_next_head (r, c) DIR_UP = (if r = 0 then 9 else r - 1, c) ∧
    get_next_head (r, BOARD_SIZE - 1) DIR_RIGHT = (r, 0) ∧
    get_next_head (r, 0) DIR_LEFT = (r, BOARD_SIZE - 1) ∧
    get_next_head (0, c) DIR_UP = (BOARD_SIZE - 1, c) ∧
    get_next_head (BOARD_SIZE - 1, c) DIR_DOWN = (0, c) ∧
    (∀ d ∈ directions, inGrid (get_next_head (r, c) d)) := by
  refine ⟨get_next_head_right r c hc0, get_next_head_left r c,
    get_next_head_down r c hr0, get_next_head_up r c, ?_, ?_, ?_, ?_, ?_⟩
  · exact get_next_head_right r 9 (by decide)
  · exact get_next_head_left r 0
  · exact get_next_head_up 0 c
  · exact get_next_head_down 9 c (by decide)
  · intro d hd
    exact get_next_head_inGrid (r, c) d ⟨hr0, hr, hc0, hc⟩ hd

theorem get_next_head_toroidal_witness :
    get_next_head (5, 9) DIR_RIGHT = (5, (9 + 1) % 10) ∧
    get_next_head (5, 9) DIR_LEFT = (5, if (9 : Int) = 0 then 9 else 9 - 1) ∧
    get_next_head (5, 9) DIR_DOWN = ((5 + 1) % 10, 9) ∧
    get_next_head (5, 9) DIR_UP = (if (5 : Int) = 0 then 9 else 5 - 1, 9) ∧
    get_next_head (5, BOARD_SIZE - 1) DIR_RIGHT = (5, 0) ∧
    get_next_head (5, 0) DIR_LEFT = (5, BOARD_SIZE - 1) ∧
    get_next_head (0, 9) DIR_UP = (BOARD_SIZE - 1, 9) ∧
    get_next_head (BOARD_SIZE - 1, 9) DIR_DOWN = (0, 9) ∧
    (∀ d ∈ directions, inGrid (get_next_head (5, 9) d)) :=
  get_next_head_toroidal 5 9 (by decide) (by decide) (by decide) (by decide)

/-- C9. Movement and its opposite are mutually inverse: for every cell `p` of
the grid and every direction `d` of the four,
`get_next_head (get_next_head p d) (opposite d) = p`. -/
theorem get_next_head_opposite (p : Position) (d : Char) (hp : inGrid p)
    (hd : d ∈ directions) :
    get_next_head (get_next_head p d) (opposite d) = p := by
  obtain ⟨r, c⟩ := p
  simp only [inGrid, BOARD_SIZE] at hp
  obtain ⟨h1, h2, h3, h4⟩ := hp
  rcases (mem_directions d).1 hd with rfl | rfl | rfl | rfl
  · have e : opposite 'r' = 'l' := by decide
    rw [e, get_next_head_right r c h3, get_next_head_left]
    congr 1; split <;> omega
  · have e : opposite 'l' = 'r' := by decide
    rw [e, get_next_head_left, get_next_head_right _ _ (by split <;> omega)]
    congr 1; split <;> omega
  · have e : opposite 'u' = 'd' := by decide
    rw [e, get_next_head_up, get_next_head_down _ _ (by split <;> omega)]
    congr 1; split <;> omega
  · have e : opposite 'd' = 'u' := by decide
    rw [e, get_next_head_down r c h1, get_next_head_up]
    congr 1; split <;> omega

theorem get_next_head_opposite_witness :
    get_next_head (get_next_head (0, 9) DIR_RIGHT) (opposite DIR_RIGHT) = (0, 9) :=
  get_next_head_opposite (0, 9) DIR_RIGHT (by decide) (by decide)

/-! ## The rejection loops -/

theorem tmod_draw (a : Nat) : 0 ≤ Int.tmod (a : Int) 10 ∧ Int.tmod (a : Int) 10 < 10 := by
  rw [tmod_board _ (by omega)]
  omega

/-- When `generateFood` returns, only `food` has changed; the new food is a cell
of the grid that is not on the snake. -/
theorem generateFood_spec (g : SnakeGame) (rs : List Nat) :
    ∀ g' rest, g.generateFood rs = some (g', rest) →
      g' = { g with food := g'.food } ∧ g'.food ∉ g.snake ∧ inGrid g'.food := by
  induction g, rs using SnakeGame.generateFood.induct with
  | case1 g a b rest g1 hmem ih =>
    intro g' rest' h
    rw [SnakeGame.generateFood] at h
    simp only [] at h
    rw [if_pos hmem] at h
    exact ih g' rest' h
  | case2 g a b rest g1 hmem =>
    intro g' rest' h
    rw [SnakeGame.generateFood] at h
    simp only [] at h
    rw [if_neg hmem] at h
    simp only [Option.some.injEq, Prod.mk.injEq] at h
    obtain ⟨rfl, rfl⟩ := h
    refine ⟨rfl, hmem, ?_⟩
    have ha := tmod_draw a
    have hb := tmod_draw b
    exact ⟨ha.1, ha.2, hb.1, hb.2⟩
  | case3 g rs hrs =>
    intro g' rest' h
    rw [SnakeGame.generateFood] at h
    · exact absurd h (by simp)
    · exact hrs

/-- A first draw that is off the snake is accepted by `generateFood`. -/
theorem generateFood_accept (g : SnakeGame) (a b : Nat) (rest : List Nat)
    (h : (Int.tmod (a : Int) 10, Int.tmod (b : Int) 10) ∉ g.snake) :
    g.generateFood (a :: b :: rest) =
      some ({ g with food := (Int.tmod (a : Int) 10, Int.tmod (b : Int) 10) }, rest) := by
  rw [SnakeGame.generateFood]
  simp only []
  rw [if_neg h]

/-- When `generatePoisonFood` returns, only `poisonFood` has changed, and it is a
cell of the grid. -/
theorem generatePoisonFood_spec (g : SnakeGame) (rs : List Nat) :
    ∀ g' rest, g.generatePoisonFood rs = some (g', rest) →
      g' = { g with poisonFood := g'.poisonFood } ∧ inGrid g'.poisonFood := by
  induction g, rs using SnakeGame.generatePoisonFood.induct with
  | case1 g a b rest g1 hmem ih =>
    intro g' rest' h
    rw [SnakeGame.generatePoisonFood] at h
    simp only [] at h
    rw [if_pos hmem] at h
    exact ih g' rest' h
  | case2 g a b rest g1 hmem =>
    intro g' rest' h
    rw [SnakeGame.generatePoisonFood] at h
    simp only [] at h
    rw [if_neg hmem] at h
    simp only [Option.some.injEq, Prod.mk.injEq] at h
    obtain ⟨rfl, rfl⟩ := h
    refine ⟨rfl, ?_⟩
    have ha := tmod_draw a
    have hb := tmod_draw b
    exact ⟨ha.1, ha.2, hb.1, hb.2⟩
  | case3 g rs hrs =>
    intro g' rest' h
    rw [SnakeGame.generatePoisonFood] at h
    · exact absurd h (by simp)
    · exact hrs

/-- With the food off the snake, `generatePoisonFood` accepts its first draw. -/
theorem generatePoisonFood_accept (g : SnakeGame) (a b : Nat) (rest : List Nat)
    (h : g.food ∉ g.snake) :
    g.generatePoisonFood (a :: b :: rest) =
      some ({ g with poisonFood := (Int.tmod (a : Int) 10, Int.tmod (b : Int) 10) }, rest) := by
  rw [SnakeGame.generatePoisonFood]
  simp only []
  rw [if_neg]
  rintro ⟨h1, h2⟩
  exact h (h2 ▸ h1)

/-! ## One tick -/

/-- The tick past the pause test and `snake.back()`. -/
theorem tick_collide (g : SnakeGame) (rs : List Nat) (back : Position)
    (hp : g.paused = false) (hback : g.snake.getLast? = some back)
    (hself : g.nextHead back ∈ g.snake) :
    g.updateGame rs = g.scored.gameOver "You hit yourself!" := by
  unfold SnakeGame.nextHead at *
  unfold SnakeGame.updateGame
  rw [if_neg (by simp [hp])]
  simp only [hback]
  rw [if_pos hself]
  rfl

theorem tick_poison (g : SnakeGame) (rs : List Nat) (back : Position)
    (hp : g.paused = false) (hback : g.snake.getLast? = some back)
    (hself : g.nextHead back ∉ g.snake) (hfood : g.nextHead back ≠ g.food)
    (hpoison : g.nextHead back = g.poisonFood) :
    g.updateGame rs = g.scored.gameOver "You ate poisonous food!" := by
  unfold SnakeGame.nextHead at *
  unfold SnakeGame.updateGame
  rw [if_neg (by simp [hp])]
  simp only [hback]
  rw [if_neg hself, if_neg hfood, if_pos hpoison]
  rfl

theorem tick_move (g : SnakeGame) (rs : List Nat) (back : Position)
    (hp : g.paused = false) (hback : g.snake.getLast? = some back)
    (hself : g.nextHead back ∉ g.snake) (hfood : g.nextHead back ≠ g.food)
    (hpoison : g.nextHead back ≠ g.poisonFood) :
    g.updateGame rs =
      Tick.returned { g.scored with snake := (g.snake ++ [g.nextHead back]).tail } rs := by
  unfold SnakeGame.nextHead at *
  unfold SnakeGame.updateGame
  rw [if_neg (by simp [hp])]
  simp only [hback]
  rw [if_neg hself, if_neg hfood, if_neg hpoison]
  simp only [SnakeGame.scored]

/-- What a tick that returns has done, on an unpaused game whose snake ends in
`back`: either it was an eating tick or a normal move. -/
theorem tick_returned (g : SnakeGame) (rs : List Nat) (back : Position)
    (hp : g.paused = false) (hback : g.snake.getLast? = some back)
    (g' : SnakeGame) (rest : List Nat) (h : g.updateGame rs = Tick.returned g' rest) :
    g.nextHead back ∉ g.snake ∧
    ((g.nextHead back = g.food ∧
        g' = { g.scored with
                food := g'.food, poisonFood := g'.poisonFood,
                snake := g.snake ++ [g.nextHead back] } ∧
        g'.food ∉ g.snake ∧ inGrid g'.food) ∨
     (g.nextHead back ≠ g.food ∧ g.nextHead back ≠ g.poisonFood ∧ rest = rs ∧
        g' = { g.scored with snake := (g.snake ++ [g.nextHead back]).tail })) := by
  by_cases hself : g.nextHead back ∈ g.snake
  · rw [tick_collide g rs back hp hback hself] at h
    exact absurd h (by simp [SnakeGame.gameOver])
  refine ⟨hself, ?_⟩
  by_cases hfood : g.nextHead back = g.food
  · left
    refine ⟨hfood, ?_⟩
    unfold SnakeGame.nextHead at hself hfood
    unfold SnakeGame.updateGame at h
    rw [if_neg (by simp [hp])] at h
    simp only [hback] at h
    rw [if_neg hself, if_pos hfood] at h
    split at h
    · exact absurd h (by simp)
    · rename_i g2 rs2 hgen
      obtain ⟨e2, hoff, hin⟩ := generateFood_spec _ rs g2 rs2 hgen
      split at h
      · exact absurd h (by simp)
      · split at h
        · split at h
          · exact absurd h (by simp)
          · rename_i g3 rs4 hpo
            obtain ⟨e3, _⟩ := generatePoisonFood_spec g2 _ g3 rs4 hpo
            simp only [Tick.returned.injEq] at h
            obtain ⟨rfl, rfl⟩ := h
            refine ⟨?_, ?_, ?_⟩
            · rw [e3, e2]
              simp only [SnakeGame.scored, SnakeGame.nextHead]
            · rw [e3]; exact hoff
            · rw [e3]; exact hin
        · simp only [Tick.returned.injEq] at h
          obtain ⟨rfl, rfl⟩ := h
          refine ⟨?_, hoff, hin⟩
          rw [e2]
          simp only [SnakeGame.scored, SnakeGame.nextHead]
  · right
    by_cases hpoison : g.nextHead back = g.poisonFood
    · rw [tick_poison g rs back hp hback hself hfood hpoison] at h
      exact absurd h (by simp [SnakeGame.gameOver])
    · rw [tick_move g rs back hp hback hself hfood hpoison] at h
      simp only [Tick.returned.injEq] at h
      obtain ⟨rfl, rfl⟩ := h
      exact ⟨hfood, hpoison, rfl, rfl⟩

/-- An eating tick either returns or is still drawing when the draws run out; it
never ends the game. -/
theorem tick_eat_outcome (g : SnakeGame) (rs : List Nat) (back : Position)
    (hp : g.paused = false) (hback : g.snake.getLast? = some back)
    (hself : g.nextHead back ∉ g.snake) (hfood : g.nextHead back = g.food) :
    (∃ g' rest, g.updateGame rs = Tick.returned g' rest) ∨
      g.updateGame rs = Tick.outOfDraws := by
  unfold SnakeGame.nextHead at hself hfood
  unfold SnakeGame.updateGame
  rw [if_neg (by simp [hp])]
  simp only [hback]
  rw [if_neg hself, if_pos hfood]
  split
  · exact Or.inr rfl
  · split
    · exact Or.inr rfl
    · split
      · split
        · exact Or.inr rfl
        · exact Or.inl ⟨_, _, rfl⟩
      · exact Or.inl ⟨_, _, rfl⟩

/-- An eating tick returns as soon as the first cell drawn is off the snake:
five draws are then enough. -/
theorem tick_eat_accept (g : SnakeGame) (back : Position)
    (hp : g.paused = false) (hback : g.snake.getLast? = some back)
    (hself : g.nextHead back ∉ g.snake) (hfood : g.nextHead back = g.food)
    (a b c d e : Nat) (rest : List Nat)
    (hoff : (Int.tmod (a : Int) 10, Int.tmod (b : Int) 10) ∉ g.snake) :
    ∃ g' rest', g.updateGame (a :: b :: c :: d :: e :: rest) = Tick.returned g' rest' := by
  unfold SnakeGame.nextHead at hself hfood
  unfold SnakeGame.updateGame
  rw [if_neg (by simp [hp])]
  simp only [hback]
  rw [if_neg hself, if_pos hfood,
    generateFood_accept { g with score := sizeToInt (g.snake.length * 10) } a b _ hoff]
  simp only []
  split
  · rw [generatePoisonFood_accept _ d e rest hoff]
    exact ⟨_, _, rfl⟩
  · exact ⟨_, _, rfl⟩

theorem snake_ne_nil_of_back (g : SnakeGame) (back : Position)
    (hback : g.snake.getLast? = some back) : g.snake ≠ [] := by
  intro h
  rw [h] at hback
  exact absurd hback (by simp)

/-- What a tick that ends the game has done, on an unpaused game whose snake ends
in `back`. -/
theorem tick_gameOver (g : SnakeGame) (rs : List Nat) (back : Position)
    (hp : g.paused = false) (hback : g.snake.getLast? = some back)
    (reason : String) (g' : SnakeGame) (saved : List Int)
    (h : g.updateGame rs = Tick.gameOver reason g' saved) :
    g' = { g.scored with topScores := multisetInsert g.scored.score g.topScores } ∧
    ((reason = "You hit yourself!" ∧ g.nextHead back ∈ g.snake) ∨
     (reason = "You ate poisonous food!" ∧ g.nextHead back ∉ g.snake ∧
        g.nextHead back ≠ g.food ∧ g.nextHead back = g.poisonFood)) := by
  by_cases hself : g.nextHead back ∈ g.snake
  · rw [tick_collide g rs back hp hback hself] at h
    simp only [SnakeGame.gameOver, Tick.gameOver.injEq] at h
    obtain ⟨rfl, rfl, _⟩ := h
    exact ⟨rfl, Or.inl ⟨rfl, hself⟩⟩
  by_cases hfood : g.nextHead back = g.food
  · rcases tick_eat_outcome g rs back hp hback hself hfood with ⟨g2, r2, e⟩ | e
    · rw [e] at h; exact absurd h (by simp)
    · rw [e] at h; exact absurd h (by simp)
  by_cases hpoison : g.nextHead back = g.poisonFood
  · rw [tick_poison g rs back hp hback hself hfood hpoison] at h
    simp only [SnakeGame.gameOver, Tick.gameOver.injEq] at h
    obtain ⟨rfl, rfl, _⟩ := h
    exact ⟨rfl, Or.inr ⟨rfl, hself, hfood, hpoison⟩⟩
  · rw [tick_move g rs back hp hback hself hfood hpoison] at h
    exact absurd h (by simp)

/-! ## The tick: normal move, eating, collision, poison, score -/

/-- C1. Normal-move tick: on an unpaused game whose snake is non-empty and ends
in `back`, if the next head `getNextHead back direction` is not on the snake, is
not the food and is not the poison food, then `updateGame` returns with the snake
equal to the old one with its first element removed and the next head appended;
the length is unchanged, and so are food, poison food, direction and the pause
flag (no draw of `rand()` is used). -/
theorem updateGame_normal_move (g : SnakeGame) (rs : List Nat) (back : Position)
    (hp : g.paused = false) (hback : g.snake.getLast? = some back)
    (hself : g.getNextHead back g.direction ∉ g.snake)
    (hfood : g.getNextHead back g.direction ≠ g.food)
    (hpoison : g.getNextHead back g.direction ≠ g.poisonFood) :
    ∃ g', g.updateGame rs = Tick.returned g' rs ∧
      g'.snake = g.snake.tail ++ [g.getNextHead back g.direction] ∧
      g'.snake.length = g.snake.length ∧
      g'.food = g.food ∧ g'.poisonFood = g.poisonFood ∧
      g'.direction = g.direction ∧ g'.paused = g.paused := by
  have hne := snake_ne_nil_of_back g back hback
  refine ⟨_, tick_move g rs back hp hback hself hfood hpoison, ?_, ?_, rfl, rfl, rfl, rfl⟩
  · exact List.tail_append_of_ne_nil hne
  · have hlen : 0 < g.snake.length := List.length_pos.2 hne
    simp only [List.length_tail, List.length_append, List.length_singleton]
    omega

theorem updateGame_normal_move_witness :
    ∃ g', oneSegment.updateGame [] = Tick.returned g' [] ∧
      g'.snake = [(0, 1)] ∧
      g'.snake.length = 1 ∧
      g'.food = (5, 5) ∧ g'.poisonFood = (-1, -1) ∧
      g'.direction = DIR_RIGHT ∧ g'.paused = false :=
  updateGame_normal_move oneSegment [] (0, 0) rfl rfl (by decide) (by decide) (by decide)

/-- C2. Eating tick: on an unpaused game whose snake ends in `back`, if the next
head is not on the snake and is the food, then for every list of draws a tick
that returns leaves the snake equal to the old snake with the next head appended
and nothing removed (length plus one, old segments kept in order); the tick never
ends the game, it can only still be drawing when the draws run out; and it does
return as soon as the first cell drawn is off the snake. -/
theorem updateGame_eating (g : SnakeGame) (back : Position)
    (hp : g.paused = false) (hback : g.snake.getLast? = some back)
    (hself : g.getNextHead back g.direction ∉ g.snake)
    (hfood : g.getNextHead back g.direction = g.food) :
    (∀ rs g' rest, g.updateGame rs = Tick.returned g' rest →
      g'.snake = g.snake ++ [g.getNextHead back g.direction] ∧
      g'.snake.length = g.snake.length + 1) ∧
    (∀ rs, (∃ g' rest, g.updateGame rs = Tick.returned g' rest) ∨
      g.updateGame rs = Tick.outOfDraws) ∧
    (∀ (a b c d e : Nat) (rest : List Nat),
      (Int.tmod (a : Int) BOARD_SIZE, Int.tmod (b : Int) BOARD_SIZE) ∉ g.snake →
      ∃ g' rest', g.updateGame (a :: b :: c :: d :: e :: rest) = Tick.returned g' rest' ∧
        g'.snake = g.snake ++ [g.getNextHead back g.direction]) := by
  have key : ∀ rs g' rest, g.updateGame rs = Tick.returned g' rest →
      g'.snake = g.snake ++ [g.getNextHead back g.direction] := by
    intro rs g' rest h
    rcases (tick_returned g rs back hp hback g' rest h).2 with ⟨_, e, _⟩ | ⟨hne, _⟩
    · rw [e]; rfl
    · exact absurd hfood hne
  refine ⟨?_, ?_, ?_⟩
  · intro rs g' rest h
    have e := key rs g' rest h
    refine ⟨e, ?_⟩
    rw [e, List.length_append, List.length_singleton]
  · intro rs
    exact tick_eat_outcome g rs back hp hback hself hfood
  · intro a b c d e rest hoff
    obtain ⟨g', rest', h⟩ := tick_eat_accept g back hp hback hself hfood a b c d e rest hoff
    exact ⟨g', rest', h, key _ g' rest' h⟩

theorem updateGame_eating_witness :
    ∃ g' rest', twoSegments.updateGame [5, 5, 1, 0, 0] = Tick.returned g' rest' ∧
      g'.snake = [(0, 0), (0, 1), (0, 2)] :=
  (updateGame_eating twoSegments (0, 1) rfl rfl (by decide) (by decide)).2.2
    5 5 1 0 0 [] (by decide)

/-- C3. Self-collision: on an unpaused game whose snake is non-empty and ends in
`back`, `updateGame` ends the game with the reason "You hit yourself!" if and
only if the next head is a segment of the snake as it stands before the move (the
first element included), whatever the food and the poison food are; and then
snake, food and poison food are as they were before the tick. -/
theorem updateGame_self_collision (g : SnakeGame) (rs : List Nat) (back : Position)
    (hp : g.paused = false) (hback : g.snake.getLast? = some back) :
    ((∃ g' saved, g.updateGame rs = Tick.gameOver "You hit yourself!" g' saved) ↔
      g.getNextHead back g.direction ∈ g.snake) ∧
    (∀ g' saved, g.updateGame rs = Tick.gameOver "You hit yourself!" g' saved →
      g'.snake = g.snake ∧ g'.food = g.food ∧ g'.poisonFood = g.poisonFood) := by
  refine ⟨⟨?_, ?_⟩, ?_⟩
  · rintro ⟨g', saved, h⟩
    rcases (tick_gameOver g rs back hp hback _ g' saved h).2 with ⟨_, hm⟩ | ⟨hr, _⟩
    · exact hm
    · exact absurd hr (by decide)
  · intro hself
    exact ⟨_, _, tick_collide g rs back hp hback hself⟩
  · intro g' saved h
    rw [(tick_gameOver g rs back hp hback _ g' saved h).1]
    exact ⟨rfl, rfl, rfl⟩

theorem updateGame_self_collision_witness :
    ((∃ g' saved, { twoSegments with direction := DIR_LEFT }.updateGame [] =
        Tick.gameOver "You hit yourself!" g' saved) ↔
      ((0, 0) : Position) ∈ [((0, 0) : Position), (0, 1)]) ∧
    (∀ g' saved, { twoSegments with direction := DIR_LEFT }.updateGame [] =
        Tick.gameOver "You hit yourself!" g' saved →
      g'.snake = [(0, 0), (0, 1)] ∧ g'.food = (0, 2) ∧ g'.poisonFood = (-1, -1)) :=
  updateGame_self_collision { twoSegments with direction := DIR_LEFT } [] (0, 1) rfl rfl

/-- C4. Poison check: on an unpaused game whose snake ends in `back` and whose
next head is not on the snake: if the next head is not the food, `updateGame`
ends the game with the reason "You ate poisonous food!" if and only if the next
head is the poison food, and then snake and food are unchanged; if the next head
is the food (also when the poison food is the same cell) the tick does not end
the game and a tick that returns has appended the next head; and with the poison
food at `(-1, -1)` no next head inside the grid ends the game by poison. -/
theorem updateGame_poison_check (g : SnakeGame) (rs : List Nat) (back : Position)
    (hp : g.paused = false) (hback : g.snake.getLast? = some back)
    (hself : g.getNextHead back g.direction ∉ g.snake) :
    (g.getNextHead back g.direction ≠ g.food →
      ((∃ g' saved, g.updateGame rs = Tick.gameOver "You ate poisonous food!" g' saved) ↔
        g.getNextHead back g.direction = g.poisonFood) ∧
      (∀ g' saved, g.updateGame rs = Tick.gameOver "You ate poisonous food!" g' saved →
        g'.snake = g.snake ∧ g'.food = g.food)) ∧
    (g.getNextHead back g.direction = g.food →
      (∀ reason g' saved, g.updateGame rs ≠ Tick.gameOver reason g' saved) ∧
      (∀ g' rest, g.updateGame rs = Tick.returned g' rest →
        g'.snake = g.snake ++ [g.getNextHead back g.direction])) ∧
    (g.poisonFood = (-1, -1) → inGrid (g.getNextHead back g.direction) →
      ∀ g' saved, g.updateGame rs ≠ Tick.gameOver "You ate poisonous food!" g' saved) := by
  refine ⟨?_, ?_, ?_⟩
  · intro hfood
    refine ⟨⟨?_, ?_⟩, ?_⟩
    · rintro ⟨g', saved, h⟩
      rcases (tick_gameOver g rs back hp hback _ g' saved h).2 with ⟨hr, _⟩ | ⟨_, _, _, hm⟩
      · exact absurd hr (by decide)
      · exact hm
    · intro hpoison
      exact ⟨_, _, tick_poison g rs back hp hback hself hfood hpoison⟩
    · intro g' saved h
      rw [(tick_gameOver g rs back hp hback _ g' saved h).1]
      exact ⟨rfl, rfl⟩
  · intro hfood
    refine ⟨?_, ?_⟩
    · intro reason g' saved h
      rcases (tick_gameOver g rs back hp hback _ g' saved h).2 with ⟨_, hm⟩ | ⟨_, _, hne, _⟩
      · exact hself hm
      · exact hne hfood
    · intro g' rest h
      rcases (tick_returned g rs back hp hback g' rest h).2 with ⟨_, e, _⟩ | ⟨hne, _⟩
      · rw [e]; rfl
      · exact absurd hfood hne
  · intro habsent hin g' saved h
    rcases (tick_gameOver g rs back hp hback _ g' saved h).2 with ⟨hr, _⟩ | ⟨_, _, _, hm⟩
    · exact absurd hr (by decide)
    · have hm' : g.getNextHead back g.direction = (-1, -1) := hm.trans habsent
      rw [hm'] at hin
      exact absurd hin (by decide)

theorem updateGame_poison_check_witness :
    (∃ g' saved, poisonAhead.updateGame [] =
        Tick.gameOver "You ate poisonous food!" g' saved) ∧
    (∀ reason g' saved, foodIsPoison.updateGame [5, 5, 1] ≠ Tick.gameOver reason g' saved) ∧
    (∀ g' saved, oneSegment.updateGame [] ≠ Tick.gameOver "You ate poisonous food!" g' saved) :=
  ⟨((updateGame_poison_check poisonAhead [] (0, 1) rfl rfl (by decide)).1 (by decide)).1.2 rfl,
   ((updateGame_poison_check foodIsPoison [5, 5, 1] (0, 1) rfl rfl (by decide)).2.1 rfl).1,
   (updateGame_poison_check oneSegment [] (0, 0) rfl rfl (by decide)).2.2 rfl (by decide)⟩

theorem sizeToInt_small (n : Nat) (h : n < 2147483648) : sizeToInt n = (n : Int) := by
  unfold sizeToInt
  have e : n % 4294967296 = n := Nat.mod_eq_of_lt (by omega)
  rw [e, if_pos h]

/-- C5, as stated, fails: the eating tick from snake `[(0,0),(0,1)]`, Right, food
`(0,2)` returns with three segments and score 20, not 30. -/
theorem eating_tick_score_counterexample :
    twoSegments.updateGame [5, 5, 1] = Tick.returned afterEating [] ∧
    afterEating.snake.length = 3 ∧ afterEating.score = 20 ∧
    afterEating.score ≠ 10 * (afterEating.snake.length : Int) ∧
    afterEating.score ≠ 30 := by
  decide

/-- C5, amended. After every non-paused tick that returns (from a snake of fewer
than 214748365 segments, so that ten times its length fits `int`), the score is
ten times the length the snake had before the tick, since it is assigned before
the move: after a normal move that is ten times the length of the snake as it
stands, after an eating tick it is ten less than that. -/
theorem updateGame_score (g : SnakeGame) (rs : List Nat) (back : Position)
    (hp : g.paused = false) (hback : g.snake.getLast? = some back)
    (hlen : g.snake.length < 214748365)
    (g' : SnakeGame) (rest : List Nat) (h : g.updateGame rs = Tick.returned g' rest) :
    g'.score = 10 * (g.snake.length : Int) ∧
    (g.getNextHead back g.direction ≠ g.food → g'.score = 10 * (g'.snake.length : Int)) ∧
    (g.getNextHead back g.direction = g.food →
      g'.score = 10 * (g'.snake.length : Int) - 10) := by
  have hne := snake_ne_nil_of_back g back hback
  have hpos : 0 < g.snake.length := List.length_pos.2 hne
  have hs : g.scored.score = 10 * (g.snake.length : Int) := by
    show sizeToInt (g.snake.length * 10) = _
    rw [sizeToInt_small _ (by omega)]
    push_cast
    omega
  rcases (tick_returned g rs back hp hback g' rest h).2 with
    ⟨hf, e, _⟩ | ⟨hnf, _, _, e⟩
  · have e1 : g'.score = g.scored.score := by rw [e]
    have e2 : g'.snake.length = g.snake.length + 1 := by
      rw [e]; simp only [List.length_append, List.length_singleton]
    refine ⟨e1.trans hs, fun hc => absurd hf hc, fun _ => ?_⟩
    rw [e1, hs, e2]
    push_cast
    omega
  · have e1 : g'.score = g.scored.score := by rw [e]
    have e2 : g'.snake.length = g.snake.length := by
      rw [e]
      simp only [List.length_tail, List.length_append, List.length_singleton]
      omega
    refine ⟨e1.trans hs, fun _ => ?_, fun hc => absurd hc hnf⟩
    rw [e1, hs, e2]

theorem updateGame_score_witness :
    afterEating.score = 10 * ((2 : Nat) : Int) ∧
    (((0, 2) : Position) ≠ (0, 2) → afterEating.score = 10 * (afterEating.snake.length : Int)) ∧
    (((0, 2) : Position) = (0, 2) →
      afterEating.score = 10 * (afterEating.snake.length : Int) - 10) :=
  updateGame_score twoSegments [5, 5, 1] (0, 1) rfl rfl (by decide) afterEating []
    (by decide)

/-! ## Direction intents -/

/-- C6. Direction intent rule: for every current direction of the four and every
direction key, `handleInput` returns; the key stands for a direction
(`d` Right, `a` Left, `w` Up, `s` Down), and the new state is the old one with
`direction` left as it was when the requested direction is the opposite of the
current one and set to the requested direction otherwise; no other member
(snake, food, poison food, score, pause flag, ledger) changes. -/
theorem handleInput_direction (g : SnakeGame) (key : Char)
    (hd : g.direction ∈ directions) (hk : key ∈ directionKeys) :
    ∃ requested, keymap.lookup key = some requested ∧ requested ∈ directions ∧
      (key = 'd' → requested = DIR_RIGHT) ∧ (key = 'a' → requested = DIR_LEFT) ∧
      (key = 'w' → requested = DIR_UP) ∧ (key = 's' → requested = DIR_DOWN) ∧
      g.handleInput key = InputResult.returned
        { g with direction :=
            if requested = opposite g.direction then g.direction else requested } := by
  obtain ⟨dir, paused, top, snake, food, poison, score⟩ := g
  simp only [mem_directions] at hd
  simp only [directionKeys, List.mem_cons, List.mem_singleton, List.not_mem_nil, or_false] at hk
  have kd : keymap.lookup 'd' = some 'r' := by decide
  have ka : keymap.lookup 'a' = some 'l' := by decide
  have kw : keymap.lookup 'w' = some 'u' := by decide
  have ks : keymap.lookup 's' = some 'd' := by decide
  have orr : opposite 'r' = 'l' := by decide
  have ol : opposite 'l' = 'r' := by decide
  have ou : opposite 'u' = 'd' := by decide
  have od : opposite 'd' = 'u' := by decide
  rcases hk with rfl | rfl | rfl | rfl
  · refine ⟨'r', kd, by decide, by decide, by decide, by decide, by decide, ?_⟩
    rcases hd with rfl | rfl | rfl | rfl <;>
      simp only [SnakeGame.handleInput, kd, orr, ol, ou, od] <;>
      simp only [DIR_RIGHT, DIR_LEFT, DIR_UP, DIR_DOWN] <;> simp
  · refine ⟨'l', ka, by decide, by decide, by decide, by decide, by decide, ?_⟩
    rcases hd with rfl | rfl | rfl | rfl <;>
      simp only [SnakeGame.handleInput, ka, orr, ol, ou, od] <;>
      simp only [DIR_RIGHT, DIR_LEFT, DIR_UP, DIR_DOWN] <;> simp
  · refine ⟨'u', kw, by decide, by decide, by decide, by decide, by decide, ?_⟩
    rcases hd with rfl | rfl | rfl | rfl <;>
      simp only [SnakeGame.handleInput, kw, orr, ol, ou, od] <;>
      simp only [DIR_RIGHT, DIR_LEFT, DIR_UP, DIR_DOWN] <;> simp
  · refine ⟨'d', ks, by decide, by decide, by decide, by decide, by decide, ?_⟩
    rcases hd with rfl | rfl | rfl | rfl <;>
      simp only [SnakeGame.handleInput, ks, orr, ol, ou, od] <;>
      simp only [DIR_RIGHT, DIR_LEFT, DIR_UP, DIR_DOWN] <;> simp

theorem handleInput_direction_witness :
    ∃ requested, keymap.lookup 'a' = some requested ∧ requested ∈ directions ∧
      (('a' : Char) = 'd' → requested = DIR_RIGHT) ∧ (('a' : Char) = 'a' → requested = DIR_LEFT) ∧
      (('a' : Char) = 'w' → requested = DIR_UP) ∧ (('a' : Char) = 's' → requested = DIR_DOWN) ∧
      oneSegment.handleInput 'a' = InputResult.returned
        { oneSegment with direction :=
            if requested = opposite oneSegment.direction then oneSegment.direction
            else requested } :=
  handleInput_direction oneSegment 'a' (by decide) (by decide)

/-! ## Runs of the game -/

theorem keymap_lookup_mem (c nd : Char) (h : keymap.lookup c = some nd) :
    nd ∈ directions := by
  by_cases h1 : c = 'd'
  · subst h1
    have e : keymap.lookup 'd' = some 'r' := by decide
    rw [e] at h
    cases h
    decide
  by_cases h2 : c = 'a'
  · subst h2
    have e : keymap.lookup 'a' = some 'l' := by decide
    rw [e] at h
    cases h
    decide
  by_cases h3 : c = 'w'
  · subst h3
    have e : keymap.lookup 'w' = some 'u' := by decide
    rw [e] at h
    cases h
    decide
  by_cases h4 : c = 's'
  · subst h4
    have e : keymap.lookup 's' = some 'd' := by decide
    rw [e] at h
    cases h
    decide
  · have b1 : (c == 'd') = false := by simpa using h1
    have b2 : (c == 'a') = false := by simpa using h2
    have b3 : (c == 'w') = false := by simpa using h3
    have b4 : (c == 's') = false := by simpa using h4
    simp [keymap, List.lookup, b1, b2, b3, b4] at h

/-- A call of `handleInput` that returns has changed at most `direction` and
`paused`, and a changed direction is one of the four. -/
theorem handleInput_returned (g : SnakeGame) (c : Char) (g' : SnakeGame)
    (h : g.handleInput c = InputResult.returned g') :
    g' = { g with direction := g'.direction, paused := g'.paused } ∧
    (g'.direction = g.direction ∨ g'.direction ∈ directions) := by
  unfold SnakeGame.handleInput at h
  split at h
  · rename_i nd hk
    split at h
    · simp only [InputResult.returned.injEq] at h
      subst h
      exact ⟨rfl, Or.inr (keymap_lookup_mem c nd hk)⟩
    · simp only [InputResult.returned.injEq] at h
      subst h
      exact ⟨rfl, Or.inl rfl⟩
  · split at h
    · simp only [InputResult.returned.injEq] at h
      subst h
      exact ⟨rfl, Or.inl rfl⟩
    · split at h
      · exact absurd h (by simp)
      · simp only [InputResult.returned.injEq] at h
        subst h
        exact ⟨rfl, Or.inl rfl⟩

theorem ctor_wellFormed (scores : List Int) (rs : List Nat) (g : SnakeGame)
    (rest : List Nat) (h : SnakeGame.ctor scores rs = some (g, rest)) : g.wellFormed := by
  unfold SnakeGame.ctor at h
  simp only [] at h
  split at h
  · exact absurd h (by simp)
  · rename_i g1 rest1 hgen
    simp only [Option.some.injEq, Prod.mk.injEq] at h
    obtain ⟨rfl, _⟩ := h
    obtain ⟨e, _, _⟩ := generateFood_spec _ rs g1 rest1 hgen
    rw [e]
    refine ⟨?_, ?_, ?_, ?_⟩
    · show DIR_RIGHT ∈ directions
      decide
    · show [((0, 0) : Position)] ≠ []
      simp
    · show [((0, 0) : Position)].Nodup
      simp
    · intro p hp
      have hp' : p ∈ [((0, 0) : Position)] := hp
      simp only [List.mem_singleton] at hp'
      subst hp'
      decide

theorem handleInput_wellFormed (g : SnakeGame) (c : Char) (g' : SnakeGame)
    (hw : g.wellFormed) (h : g.handleInput c = InputResult.returned g') : g'.wellFormed := by
  obtain ⟨e, hd⟩ := handleInput_returned g c g' h
  obtain ⟨h1, h2, h3, h4⟩ := hw
  have es : g'.snake = g.snake := by rw [e]
  refine ⟨?_, ?_, ?_, ?_⟩
  · rcases hd with hd | hd
    · rw [hd]; exact h1
    · exact hd
  · rw [es]; exact h2
  · rw [es]; exact h3
  · rw [es]; exact h4

theorem tick_wellFormed (g : SnakeGame) (rs : List Nat) (g' : SnakeGame)
    (rest : List Nat) (hw : g.wellFormed) (h : g.updateGame rs = Tick.returned g' rest) :
    g'.wellFormed := by
  obtain ⟨h1, h2, h3, h4⟩ := hw
  by_cases hp : g.paused = true
  · unfold SnakeGame.updateGame at h
    rw [if_pos hp] at h
    simp only [Tick.returned.injEq] at h
    obtain ⟨rfl, _⟩ := h
    exact ⟨h1, h2, h3, h4⟩
  · have hp' : g.paused = false := by simpa using hp
    have hback := List.getLast?_eq_getLast g.snake h2
    have hbm : g.snake.getLast h2 ∈ g.snake := List.getLast_mem h2
    have hin : inGrid (g.nextHead (g.snake.getLast h2)) :=
      get_next_head_inGrid _ _ (h4 _ hbm) h1
    obtain ⟨hself, hcase⟩ := tick_returned g rs _ hp' hback g' rest h
    rcases hcase with ⟨_, e, _⟩ | ⟨_, _, _, e⟩
    · have ed : g'.direction = g.direction := by rw [e]; rfl
      have es : g'.snake = g.snake ++ [g.nextHead (g.snake.getLast h2)] := by rw [e]
      refine ⟨by rw [ed]; exact h1, ?_, ?_, ?_⟩
      · rw [es]; simp
      · rw [es]
        exact List.Nodup.append h3 (List.nodup_singleton _)
          (by
            intro a ha hb
            simp only [List.mem_singleton] at hb
            subst hb
            exact hself ha)
      · intro p hp
        rw [es, List.mem_append, List.mem_singleton] at hp
        rcases hp with hp | hp
        · exact h4 p hp
        · rw [hp]; exact hin
    · have ed : g'.direction = g.direction := by rw [e]; rfl
      have es : g'.snake = (g.snake ++ [g.nextHead (g.snake.getLast h2)]).tail := by rw [e]
      have hnd : (g.snake ++ [g.nextHead (g.snake.getLast h2)]).Nodup :=
        List.Nodup.append h3 (List.nodup_singleton _)
          (by
            intro a ha hb
            simp only [List.mem_singleton] at hb
            subst hb
            exact hself ha)
      refine ⟨by rw [ed]; exact h1, ?_, ?_, ?_⟩
      · rw [es, List.tail_append_of_ne_nil h2]; simp
      · rw [es]
        exact hnd.sublist (List.tail_sublist _)
      · intro p hp
        rw [es] at hp
        have hp2 := List.mem_of_mem_tail hp
        rw [List.mem_append, List.mem_singleton] at hp2
        rcases hp2 with hp2 | hp2
        · exact h4 p hp2
        · rw [hp2]; exact hin

theorem reachable_wellFormed (g : SnakeGame) (h : Reachable g) : g.wellFormed := by
  induction h with
  | init scores rs g rest h => exact ctor_wellFormed scores rs g rest h
  | input g c g' _ h ih => exact handleInput_wellFormed g c g' ih h
  | tick g rs g' rest _ h ih => exact tick_wellFormed g rs g' rest ih h

/-- C10. Snake invariant: in every state of a run (from the constructor's state,
through any `handleInput` calls and any ticks that return, on any draws) the
snake has at least one segment, has no position twice, and every segment
`(row, col)` has `0 ≤ row, col < BOARD_SIZE`. -/
theorem snake_invariant (g : SnakeGame) (h : Reachable g) :
    1 ≤ g.snake.length ∧ g.snake.Nodup ∧
    ∀ p ∈ g.snake, 0 ≤ p.1 ∧ p.1 < BOARD_SIZE ∧ 0 ≤ p.2 ∧ p.2 < BOARD_SIZE := by
  obtain ⟨_, h2, h3, h4⟩ := reachable_wellFormed g h
  exact ⟨List.length_pos.2 h2, h3, h4⟩

theorem snake_invariant_witness :
    1 ≤ afterEating.snake.length ∧ afterEating.snake.Nodup ∧
    ∀ p ∈ afterEating.snake, 0 ≤ p.1 ∧ p.1 < BOARD_SIZE ∧ 0 ≤ p.2 ∧ p.2 < BOARD_SIZE :=
  snake_invariant afterEating
    (Reachable.tick twoSegments [5, 5, 1] afterEating []
      (Reachable.tick { oneSegment with food := (0, 1) } [0, 2, 1] twoSegments []
        (Reachable.init [] [0, 1] { oneSegment with food := (0, 1) } [] (by decide))
        (by decide))
      (by decide))

/-- C7 fails on the code.  From the constructor's state, a tick, then the keys
`w` and `a`, then a tick: the second tick moves Left although the tick before
it moved Right, and the one-segment snake goes from `(0,1)` back to `(0,0)`.
With the food at `(0,1)` the first tick grows the snake to `[(0,0),(0,1)]`, and
after the same two keys the second tick runs the head into the neck: the game
ends with "You hit yourself!". -/
theorem reversal_between_ticks :
    SnakeGame.ctor [] [5, 5] = some (oneSegment, []) ∧
    tickDirections oneSegment
      [Event.tick [], Event.input 'w', Event.input 'a', Event.tick []] =
      [DIR_RIGHT, DIR_LEFT] ∧
    opposite DIR_RIGHT = DIR_LEFT ∧
    SnakeGame.ctor [] [0, 1] = some ({ oneSegment with food := (0, 1) }, []) ∧
    SnakeGame.updateGame { oneSegment with food := (0, 1) } [0, 2, 1] =
      Tick.returned twoSegments [] ∧
    twoSegments.handleInput 'w' =
      InputResult.returned { twoSegments with direction := DIR_UP } ∧
    SnakeGame.handleInput { twoSegments with direction := DIR_UP } 'a' =
      InputResult.returned { twoSegments with direction := DIR_LEFT } ∧
    SnakeGame.updateGame { twoSegments with direction := DIR_LEFT } [] =
      Tick.gameOver "You hit yourself!"
        { twoSegments with direction := DIR_LEFT, score := 20, topScores := [20] } [20] := by
  decide

/-! ## Food and poison placement -/

/-- C11 fails on the code.  The state `twoSegments` is a state of a run; its
eating tick on the draws `0, 2, 1` returns with the new food at `(0, 2)`, the
cell just eaten, which is the last segment of the snake as it then stands:
`generateFood` tests the snake before the new head is appended.  The same
happens in a run whose draws are all `1` (so that the order of the two calls of
`rand()` in a pair does not matter): the food is at `(1, 1)`, the keys `s`, `d`
and two ticks bring the head to `(1, 0)` and then onto the food, and the new
food `(1, 1)` is under the new head. -/
theorem food_on_snake_after_eating :
    SnakeGame.ctor [] [0, 1] = some ({ oneSegment with food := (0, 1) }, []) ∧
    SnakeGame.updateGame { oneSegment with food := (0, 1) } [0, 2, 1] =
      Tick.returned twoSegments [] ∧
    twoSegments.updateGame [0, 2, 1] = Tick.returned foodUnderHead [] ∧
    foodUnderHead.snake = [(0, 0), (0, 1), (0, 2)] ∧
    foodUnderHead.food = (0, 2) ∧
    foodUnderHead.food ∈ foodUnderHead.snake ∧
    SnakeGame.ctor [] [1, 1] = some ({ oneSegment with food := (1, 1) }, []) ∧
    SnakeGame.handleInput { oneSegment with food := (1, 1) } 's' =
      InputResult.returned { oneSegment with food := (1, 1), direction := DIR_DOWN } ∧
    SnakeGame.updateGame { oneSegment with food := (1, 1), direction := DIR_DOWN } [] =
      Tick.returned
        { oneSegment with
            food := (1, 1), direction := DIR_DOWN, snake := [(1, 0)], score := 10 } [] ∧
    SnakeGame.handleInput
        { oneSegment with
            food := (1, 1), direction := DIR_DOWN, snake := [(1, 0)], score := 10 } 'd' =
      InputResult.returned
        { oneSegment with food := (1, 1), snake := [(1, 0)], score := 10 } ∧
    SnakeGame.updateGame
        { oneSegment with food := (1, 1), snake := [(1, 0)], score := 10 } [1, 1, 1] =
      Tick.returned foodUnderHeadSame [] ∧
    foodUnderHeadSame.snake = [(1, 0), (1, 1)] ∧
    foodUnderHeadSame.food = (1, 1) ∧
    foodUnderHeadSame.food ∈ foodUnderHeadSame.snake := by
  decide

/-- C12 fails on the code.  On the eating tick of `twoSegments`, the draws
`5, 5, 0, 0, 0` leave the poison food at `(0, 0)`, a segment of the snake, and
the draws `5, 5, 0, 5, 5` leave it at `(5, 5)`, the food: the loop of
`generatePoisonFood` rejects a cell only when it is on the snake and is the
food. -/
theorem poison_on_snake_or_food :
    twoSegments.updateGame [5, 5, 0, 0, 0] =
      Tick.returned { afterEating with poisonFood := (0, 0) } [] ∧
    ((0, 0) : Position) ∈ afterEating.snake ∧
    twoSegments.updateGame [5, 5, 0, 5, 5] =
      Tick.returned { afterEating with poisonFood := (5, 5) } [] ∧
    afterEating.food = (5, 5) := by
  decide

/-! ## Tick delay -/

/-- The delay of a snake short enough for the reduction to fit `int`. -/
theorem calculateDelay_eq (g : SnakeGame) (hb : g.snake.length < 429496730) :
    g.calculateDelay = max 100 (500 - ((g.snake.length / 10 : Nat) : Int) * 50) := by
  unfold SnakeGame.calculateDelay
  have e : DELAY_REDUCTION_MS.toNat = 50 := by decide
  simp only [e, MIN_DELAY_MS, BASE_DELAY_MS]
  rw [sizeToInt_small _ (by omega)]
  push_cast
  rfl

/-! ## Pause and other keys -/

/-- C14. A paused tick mutates nothing: with `paused` set, `updateGame` returns
the game exactly as it was (snake, food, poison food, score, direction, pause
flag, ledger), uses no draw, and does so whatever the snake and the next head
are. -/
theorem updateGame_paused (g : SnakeGame) (rs : List Nat) (hp : g.paused = true) :
    g.updateGame rs = Tick.returned g rs := by
  unfold SnakeGame.updateGame
  rw [if_pos hp]

theorem updateGame_paused_witness :
    SnakeGame.updateGame { twoSegments with paused := true } [5, 5, 1] =
      Tick.returned { twoSegments with paused := true } [5, 5, 1] :=
  updateGame_paused { twoSegments with paused := true } [5, 5, 1] rfl

theorem keymap_lookup_none (c : Char) (h1 : c ≠ 'd') (h2 : c ≠ 'a') (h3 : c ≠ 'w')
    (h4 : c ≠ 's') : keymap.lookup c = none := by
  have b1 : (c == 'd') = false := by simpa using h1
  have b2 : (c == 'a') = false := by simpa using h2
  have b3 : (c == 'w') = false := by simpa using h3
  have b4 : (c == 's') = false := by simpa using h4
  simp [keymap, List.lookup, b1, b2, b3, b4]

/-- C15. The pause toggle is an involution: `handleInput(PAUSE_KEY)` returns the
state with `paused` flipped and nothing else changed, and applying it to that
state returns the original state. -/
theorem handleInput_pause (g : SnakeGame) :
    g.handleInput PAUSE_KEY = InputResult.returned { g with paused := !g.paused } ∧
    SnakeGame.handleInput { g with paused := !g.paused } PAUSE_KEY =
      InputResult.returned g := by
  have hk : keymap.lookup 'x' = none := by decide
  constructor
  · simp only [SnakeGame.handleInput, PAUSE_KEY, hk, if_true]
  · simp only [SnakeGame.handleInput, PAUSE_KEY, hk, if_true, Bool.not_not]

/-- C16. Unrecognized input is ignored: for every character other than `w`,
`a`, `s`, `d`, the pause key and the quit key, `handleInput` returns and the
whole game state (direction, pause flag, snake, food, poison food, score,
ledger) is as before. -/
theorem handleInput_unrecognized (g : SnakeGame) (c : Char) (h : c ∉ recognizedKeys) :
    g.handleInput c = InputResult.returned g := by
  simp only [recognizedKeys, PAUSE_KEY, QUIT_KEY, List.mem_cons, List.mem_singleton,
    List.not_mem_nil, or_false, not_or] at h
  obtain ⟨hw, ha, hs, hd, hx, hq⟩ := h
  have hk := keymap_lookup_none c hd ha hw hs
  simp only [SnakeGame.handleInput, hk, PAUSE_KEY, QUIT_KEY, if_neg hx, if_neg hq]

theorem handleInput_unrecognized_witness :
    twoSegments.handleInput 'z' = InputResult.returned twoSegments :=
  handleInput_unrecognized twoSegments 'z' (by decide)

/-! ## Reading and writing the score file -/

theorem digitChar_toNat (d : Nat) (h : d < 10) : (digitChar d).toNat = 48 + d := by
  interval_cases d <;> decide

theorem isDigit_digitChar (d : Nat) (h : d < 10) : isDigit (digitChar d) = true := by
  simp only [isDigit, digitChar_toNat d h, Bool.and_eq_true, decide_eq_true_eq]
  omega

theorem digitValue_digitChar (d : Nat) (h : d < 10) : digitValue (digitChar d) = d := by
  simp only [digitValue, digitChar_toNat d h]
  omega

theorem not_isDigit_of_isSpace (c : Char) (h : isSpace c = true) : isDigit c = false := by
  simp only [isSpace, Bool.or_eq_true, Bool.and_eq_true, decide_eq_true_eq] at h
  simp only [isDigit, Bool.and_eq_false_iff, decide_eq_false_iff_not]
  omega

theorem not_isSpace_of_isDigit (c : Char) (h : isDigit c = true) : isSpace c = false := by
  cases hs : isSpace c
  · rfl
  · rw [not_isDigit_of_isSpace c hs] at h
    exact absurd h (by decide)

theorem readDigits_stop (text : List Char) (acc : Nat) (h : noDigitAhead text) :
    readDigits text acc = (acc, text) := by
  cases text with
  | nil => rfl
  | cons c cs =>
    have hc := h c cs rfl
    simp [readDigits, hc]

theorem readDigits_natDigits (fuel : Nat) :
    ∀ (n : Nat) (tl : List Char), n < fuel →
      readDigits (natDigits fuel n ++ tl) 0 = readDigits tl n := by
  induction fuel with
  | zero => intro n tl h; omega
  | succ fuel ih =>
    intro n tl h
    by_cases hn : n < 10
    · simp only [natDigits, if_pos hn, List.singleton_append, readDigits,
        isDigit_digitChar n hn, digitValue_digitChar n hn, if_true]
      congr 1
      omega
    · have hd : n % 10 < 10 := Nat.mod_lt _ (by decide)
      simp only [natDigits, if_neg hn, List.append_assoc, List.singleton_append]
      rw [ih (n / 10) _ (by omega)]
      simp only [readDigits, isDigit_digitChar _ hd, digitValue_digitChar _ hd, if_true]
      congr 1
      omega

theorem natDigits_head (fuel : Nat) :
    ∀ n : Nat, ∃ c cs, natDigits (fuel + 1) n = c :: cs ∧ isDigit c = true := by
  induction fuel with
  | zero =>
    intro n
    by_cases hn : n < 10
    · exact ⟨digitChar n, [], by simp [natDigits, hn], isDigit_digitChar n hn⟩
    · exact ⟨digitChar (n % 10), [], by simp [natDigits, hn],
        isDigit_digitChar _ (Nat.mod_lt _ (by decide))⟩
  | succ fuel ih =>
    intro n
    by_cases hn : n < 10
    · exact ⟨digitChar n, [], by simp [natDigits, hn], isDigit_digitChar n hn⟩
    · obtain ⟨c, cs, e, hc⟩ := ih (n / 10)
      refine ⟨c, cs ++ [digitChar (n % 10)], ?_, hc⟩
      rw [natDigits, if_neg hn, e]
      rfl

theorem readNat_natDigits (n : Nat) (tl : List Char) (h : noDigitAhead tl) :
    readNat (natDigits (n + 1) n ++ tl) = some (n, tl) := by
  obtain ⟨c, cs, e, hc⟩ := natDigits_head n n
  have hr := readDigits_natDigits (n + 1) n tl (by omega)
  rw [e] at hr ⊢
  simp only [List.cons_append] at hr ⊢
  simp only [readNat, hc, if_true]
  rw [hr, readDigits_stop tl n h]

theorem dropWhile_isSpace_append (ws text : List Char) (h : ∀ c ∈ ws, isSpace c = true) :
    (ws ++ text).dropWhile isSpace = text.dropWhile isSpace := by
  induction ws with
  | nil => rfl
  | cons w ws ih =>
    have hw : isSpace w = true := h w (List.mem_cons_self _ _)
    rw [List.cons_append, List.dropWhile_cons_of_pos hw]
    exact ih (fun c hc => h c (List.mem_cons_of_mem _ hc))

/-- White space in front of the text does not change what is extracted. -/
theorem extractInt_skip (ws text : List Char) (h : ∀ c ∈ ws, isSpace c = true) :
    extractInt (ws ++ text) = extractInt text := by
  unfold extractInt
  rw [dropWhile_isSpace_append ws text h]

theorem extractInt_minus (cs : List Char) :
    extractInt ('-' :: cs) =
      match readNat cs with
      | some (n, rest) => if n ≤ 2147483648 then some (-(n : Int), rest) else none
      | none => none := by
  have hs : isSpace '-' = false := by decide
  unfold extractInt
  rw [List.dropWhile_cons_of_neg (by simp [hs])]
  split
  · rename_i cs' e
    simp only [List.cons.injEq, true_and] at e
    rw [e]
  · rename_i cs' e
    simp only [List.cons.injEq] at e
    exact absurd e.1 (by decide)
  · rename_i hne _
    exact absurd rfl (hne cs)

theorem extractInt_digit (c : Char) (cs : List Char) (hc : isDigit c = true) :
    extractInt (c :: cs) =
      match readNat (c :: cs) with
      | some (n, rest) => if n < 2147483648 then some ((n : Int), rest) else none
      | none => none := by
  have hs : isSpace c = false := not_isSpace_of_isDigit c hc
  unfold extractInt
  rw [List.dropWhile_cons_of_neg (by simp [hs])]
  split
  · rename_i cs' e
    simp only [List.cons.injEq] at e
    rw [e.1] at hc
    exact absurd hc (by decide)
  · rename_i cs' e
    simp only [List.cons.injEq] at e
    rw [e.1] at hc
    exact absurd hc (by decide)
  · rfl

/-- Reading back what `outfile << score` wrote gives the score, when it is an
`int` and the text does not go on with a digit. -/
theorem extractInt_printInt (v : Int) (tl : List Char)
    (hlo : -2147483648 ≤ v) (hhi : v < 2147483648) (h : noDigitAhead tl) :
    extractInt (printInt v ++ tl) = some (v, tl) := by
  by_cases hv : v < 0
  · simp only [printInt, if_pos hv, List.cons_append]
    rw [extractInt_minus, readNat_natDigits _ tl h]
    simp only []
    rw [if_pos (by omega)]
    congr 2
    omega
  · simp only [printInt, if_neg hv]
    obtain ⟨c, cs, e, hc⟩ := natDigits_head v.natAbs v.natAbs
    have hr := readNat_natDigits v.natAbs tl h
    rw [e] at hr ⊢
    rw [List.cons_append] at hr ⊢
    rw [extractInt_digit c _ hc, hr]
    simp only []
    rw [if_pos (by omega)]
    congr 2
    omega

theorem loadScoresLoop_skip (fuel : Nat) (ws text : List Char) (top : List Int)
    (h : ∀ c ∈ ws, isSpace c = true) :
    loadScoresLoop fuel (ws ++ text) top = loadScoresLoop fuel text top := by
  cases fuel with
  | zero => rfl
  | succ f => simp only [loadScoresLoop, extractInt_skip ws text h]

theorem noDigitAhead_sep (sep text : List Char) (hne : sep ≠ [])
    (h : ∀ c ∈ sep, isSpace c = true) : noDigitAhead (sep ++ text) := by
  intro c cs e
  cases sep with
  | nil => exact absurd rfl hne
  | cons w ws =>
    simp only [List.cons_append, List.cons.injEq] at e
    rw [← e.1]
    exact not_isDigit_of_isSpace w (h w (List.mem_cons_self _ _))

/-- The loop of `loadScores` on a text of entries followed by a text on which
extraction fails: the non-negative entries are inserted in file order. -/
theorem loadScoresLoop_entries (entries : List (Int × List Char)) :
    ∀ (rest : List Char) (top : List Int) (fuel : Nat),
      (∀ e ∈ entries, -2147483648 ≤ e.1 ∧ e.1 < 2147483648) →
      (∀ e ∈ entries, e.2 ≠ [] ∧ ∀ c ∈ e.2, isSpace c = true) →
      extractInt rest = none →
      (entriesText entries ++ rest).length < fuel →
      loadScoresLoop fuel (entriesText entries ++ rest) top =
        insertAll (acceptedScores entries) top := by
  induction entries with
  | nil =>
    intro rest top fuel _ _ hbad hf
    cases fuel with
    | zero => omega
    | succ f =>
      simp only [entriesText, List.nil_append, loadScoresLoop, hbad]
      rfl
  | cons e es ih =>
    intro rest top fuel hr hs hbad hf
    obtain ⟨v, sep⟩ := e
    have hv := hr (v, sep) (List.mem_cons_self _ _)
    have hsep := hs (v, sep) (List.mem_cons_self _ _)
    cases fuel with
    | zero => omega
    | succ f =>
      have hx : extractInt (printInt v ++ (sep ++ (entriesText es ++ rest))) =
          some (v, sep ++ (entriesText es ++ rest)) :=
        extractInt_printInt v _ hv.1 hv.2 (noDigitAhead_sep sep _ hsep.1 hsep.2)
      have hlen : (entriesText es ++ rest).length < f := by
        have hpos : 0 < sep.length := List.length_pos.2 hsep.1
        simp only [entriesText, List.append_assoc, List.length_append] at hf ⊢
        omega
      simp only [entriesText, List.append_assoc, loadScoresLoop, hx]
      rw [loadScoresLoop_skip f sep _ _ hsep.2,
        ih rest _ f (fun e he => hr e (List.mem_cons_of_mem _ he))
          (fun e he => hs e (List.mem_cons_of_mem _ he)) hbad hlen]
      by_cases h0 : 0 ≤ v
      · have hge : v ≥ 0 := h0
        simp [acceptedScores, insertAll, h0, hge]
      · have hge : ¬ v ≥ 0 := h0
        simp [acceptedScores, insertAll, h0, hge]

theorem multisetInsert_last (x : Int) (l : List Int) (h : ∀ y ∈ l, x ≤ y) :
    multisetInsert x l = l ++ [x] := by
  induction l with
  | nil => rfl
  | cons e rest ih =>
    have he := h e (List.mem_cons_self _ _)
    have hx : ¬ x > e := by omega
    simp only [multisetInsert, if_neg hx, List.cons_append]
    rw [ih (fun y hy => h y (List.mem_cons_of_mem _ hy))]

/-- Inserting a descending list, entry after entry, below a ledger whose entries
are all at least as large appends it. -/
theorem insertAll_descending_eq (scores : List Int) :
    ∀ top : List Int, descending scores → (∀ y ∈ top, ∀ x ∈ scores, x ≤ y) →
      insertAll scores top = top ++ scores := by
  induction scores with
  | nil => intro top _ _; simp [insertAll]
  | cons s rest ih =>
    intro top hd hb
    unfold descending at hd
    rw [List.pairwise_cons] at hd
    have e1 : multisetInsert s top = top ++ [s] :=
      multisetInsert_last s top (fun y hy => hb y hy s (List.mem_cons_self _ _))
    have e2 : insertAll (s :: rest) top = insertAll rest (multisetInsert s top) := rfl
    rw [e2, e1, ih (top ++ [s]) hd.2]
    · simp
    · intro y hy x hx
      rcases List.mem_append.1 hy with hy | hy
      · exact hb y hy x (List.mem_cons_of_mem _ hx)
      · rw [List.mem_singleton.1 hy]
        exact hd.1 x hx

theorem saveScoresLoop_eq (l : List Int) :
    ∀ count : Nat, count ≤ 10 → saveScoresLoop l count = l.take (10 - count) := by
  induction l with
  | nil => intro count _; simp [saveScoresLoop]
  | cons s rest ih =>
    intro count hc
    by_cases h : count = 10
    · subst h
      simp [saveScoresLoop]
    · have e : 10 - count = (10 - (count + 1)) + 1 := by omega
      simp only [saveScoresLoop, MAX_TOP_SCORES, if_neg h]
      rw [ih (count + 1) (by omega), e, List.take_succ_cons]

theorem scoreLines_eq_entriesText (l : List Int) :
    scoreLines l = entriesText (l.map (fun v => (v, ['\n']))) ++ [] := by
  induction l with
  | nil => rfl
  | cons s rest ih =>
    simp only [scoreLines, List.map_cons, entriesText, ih, List.append_nil,
      List.singleton_append]

theorem saveScores_eq (g : SnakeGame) : g.saveScores = g.topScores.take 10 := by
  unfold SnakeGame.saveScores
  rw [saveScoresLoop_eq g.topScores 0 (by omega)]

theorem descending_take (l : List Int) (n : Nat) (h : descending l) :
    descending (l.take n) :=
  List.Pairwise.sublist (List.take_sublist n l) h

/-- Reading back the text of a descending list of non-negative `int` scores,
into an empty ledger, gives the list. -/
theorem loadScoresLoop_scoreLines (l : List Int) (hd : descending l)
    (hv : ∀ v ∈ l, 0 ≤ v ∧ v < 2147483648) :
    loadScoresLoop ((scoreLines l).length + 1) (scoreLines l) [] = l := by
  have hx : extractInt [] = none := by decide
  have hacc : acceptedScores (l.map (fun v => (v, ['\n']))) = l := by
    unfold acceptedScores
    rw [List.map_map]
    have e : (Prod.fst ∘ fun v : Int => (v, ['\n'])) = id := rfl
    rw [e, List.map_id, List.filter_eq_self]
    intro v hm
    simpa using (hv v hm).1
  rw [scoreLines_eq_entriesText l,
    loadScoresLoop_entries _ [] [] _ ?_ ?_ hx (Nat.lt_succ_self _), hacc,
    insertAll_descending_eq l [] hd (fun y hy => absurd hy (List.not_mem_nil y))]
  · rfl
  · intro e he
    obtain ⟨v, hm, rfl⟩ := List.mem_map.1 he
    have := hv v hm
    exact ⟨by omega, this.2⟩
  · intro e he
    obtain ⟨v, _, rfl⟩ := List.mem_map.1 he
    refine ⟨by simp, ?_⟩
    intro c hc
    rw [List.mem_singleton.1 hc]
    decide

/-- C19, as stated, fails for more than ten scores: a ledger of eleven scores is
written as ten lines, and reading them back gives the ten largest; the score
`10` is gone. -/
theorem roundTrip_counterexample :
    elevenScores.topScores.length = 11 ∧
    descending elevenScores.topScores ∧
    (oneSegment.loadScores (some elevenScores.saveScoresText)).topScores =
      [110, 100, 90, 80, 70, 60, 50, 40, 30, 20] ∧
    (oneSegment.loadScores (some elevenScores.saveScoresText)).topScores.take 11 ≠
      elevenScores.topScores := by
  decide

/-- C19, amended. For a ledger `g.topScores` of non-negative `int` scores in
descending order, writing it with `saveScores` and reading the text back with
`loadScores` into a game with an empty ledger yields the first
`MAX_TOP_SCORES` entries of the ledger, the largest ones, in descending order;
with `N ≤ MAX_TOP_SCORES` scores it yields exactly those `N` scores in
descending order. -/
theorem save_load_roundTrip (g fresh : SnakeGame) (hfresh : fresh.topScores = [])
    (hd : descending g.topScores)
    (hv : ∀ v ∈ g.topScores, 0 ≤ v ∧ v < 2147483648) :
    (fresh.loadScores (some g.saveScoresText)).topScores =
      g.topScores.take MAX_TOP_SCORES ∧
    (g.topScores.length ≤ MAX_TOP_SCORES →
      (fresh.loadScores (some g.saveScoresText)).topScores = g.topScores ∧
      (fresh.loadScores (some g.saveScoresText)).topScores.take g.topScores.length =
        g.topScores) := by
  have e : (fresh.loadScores (some g.saveScoresText)).topScores = g.topScores.take 10 := by
    simp only [SnakeGame.loadScores, SnakeGame.saveScoresText, hfresh, saveScores_eq]
    exact loadScoresLoop_scoreLines _ (descending_take _ _ hd)
      (fun v hm => hv v (List.mem_of_mem_take hm))
  refine ⟨e, ?_⟩
  intro hl
  have ht : g.topScores.take 10 = g.topScores := List.take_of_length_le hl
  rw [e, ht]
  exact ⟨rfl, List.take_length _⟩

theorem save_load_roundTrip_witness :
    (oneSegment.loadScores
        (some (SnakeGame.saveScoresText { oneSegment with topScores := [30, 20, 20] }))).topScores =
      ([30, 20, 20] : List Int).take MAX_TOP_SCORES ∧
    (([30, 20, 20] : List Int).length ≤ MAX_TOP_SCORES →
      (oneSegment.loadScores
        (some (SnakeGame.saveScoresText { oneSegment with topScores := [30, 20, 20] }))).topScores =
        [30, 20, 20] ∧
      (oneSegment.loadScores
        (some (SnakeGame.saveScoresText
          { oneSegment with topScores := [30, 20, 20] }))).topScores.take
          ([30, 20, 20] : List Int).length = [30, 20, 20]) :=
  save_load_roundTrip { oneSegment with topScores := [30, 20, 20] } oneSegment rfl
    (by decide) (by decide)

/-! ## The rejection loops inside a run -/

theorem mem_gridCells (p : Position) (h : inGrid p) : p ∈ gridCells := by
  obtain ⟨r, c⟩ := p
  simp only [inGrid, BOARD_SIZE] at h
  obtain ⟨h1, h2, h3, h4⟩ := h
  have er : ((r.toNat : Nat) : Int) = r := Int.toNat_of_nonneg h1
  have ec : ((c.toNat : Nat) : Int) = c := Int.toNat_of_nonneg h3
  have hr : r.toNat < 10 := by omega
  have hc : c.toNat < 10 := by omega
  refine List.mem_flatMap.2 ⟨r.toNat, List.mem_range.2 hr, ?_⟩
  refine List.mem_map.2 ⟨c.toNat, List.mem_range.2 hc, ?_⟩
  show (((r.toNat : Nat) : Int), ((c.toNat : Nat) : Int)) = (r, c)
  rw [er, ec]

theorem gridCells_length : gridCells.length = 100 := by
  decide

/-- A list of distinct cells of the board has at most 100 entries. -/
theorem length_le_of_nodup_inGrid (l : List Position) (hn : l.Nodup)
    (hg : ∀ p ∈ l, inGrid p) : l.length ≤ 100 := by
  have hsub : l ⊆ gridCells := fun p hp => mem_gridCells p (hg p hp)
  have := (List.Nodup.subperm hn hsub).length_le
  rw [gridCells_length] at this
  exact this

/-- A list of distinct cells of the board that misses a cell of the board has at
most 99 entries. -/
theorem length_le_of_free_cell (l : List Position) (hn : l.Nodup)
    (hg : ∀ p ∈ l, inGrid p) (q : Position) (hq : inGrid q) (hfree : q ∉ l) :
    l.length ≤ 99 := by
  have h := length_le_of_nodup_inGrid (q :: l) (List.nodup_cons.2 ⟨hfree, hn⟩)
    (by
      intro p hp
      rcases List.mem_cons.1 hp with hp | hp
      · rw [hp]; exact hq
      · exact hg p hp)
  rw [List.length_cons] at h
  omega

/-- Every cell of the board is what some pair of draws gives. -/
theorem draw_of_cell (p : Position) (h : inGrid p) :
    (Int.tmod ((p.1.toNat : Nat) : Int) 10, Int.tmod ((p.2.toNat : Nat) : Int) 10) = p := by
  obtain ⟨r, c⟩ := p
  simp only [inGrid, BOARD_SIZE] at h
  obtain ⟨h1, h2, h3, h4⟩ := h
  have er : ((r.toNat : Nat) : Int) = r := Int.toNat_of_nonneg h1
  have ec : ((c.toNat : Nat) : Int) = c := Int.toNat_of_nonneg h3
  simp only [er, ec, Int.tmod_eq_of_lt h1 h2, Int.tmod_eq_of_lt h3 h4]

/-- Whatever has been drawn so far, the loop of `generateFood` returns on some
further draws, as long as one cell of the board is off the snake. -/
theorem generateFood_can_accept (p : Position) (hp : inGrid p) (g : SnakeGame)
    (rs : List Nat) :
    p ∉ g.snake → ∃ ext, (g.generateFood (rs ++ ext)).isSome = true := by
  induction g, rs using SnakeGame.generateFood.induct with
  | case1 g a b rest g1 hmem ih =>
    intro hfree
    obtain ⟨ext, he⟩ := ih hfree
    refine ⟨ext, ?_⟩
    rw [List.cons_append, List.cons_append, SnakeGame.generateFood]
    simp only []
    rw [if_pos hmem]
    exact he
  | case2 g a b rest g1 hmem =>
    intro _
    refine ⟨[], ?_⟩
    rw [List.append_nil, SnakeGame.generateFood]
    simp only []
    rw [if_neg hmem]
    rfl
  | case3 rs g hrs =>
    intro hfree
    have hacc : ∀ (t : SnakeGame), t.snake = g.snake →
        (t.generateFood [p.1.toNat, p.2.toNat]).isSome = true := by
      intro t ht
      have hoff : (Int.tmod ((p.1.toNat : Nat) : Int) 10,
          Int.tmod ((p.2.toNat : Nat) : Int) 10) ∉ t.snake := by
        rw [draw_of_cell p hp, ht]
        exact hfree
      rw [generateFood_accept t _ _ [] hoff]
      rfl
    cases rs with
    | nil => exact ⟨[p.1.toNat, p.2.toNat], hacc g rfl⟩
    | cons x xs =>
      cases xs with
      | nil =>
        refine ⟨[0, p.1.toNat, p.2.toNat], ?_⟩
        rw [List.singleton_append, SnakeGame.generateFood]
        simp only []
        split
        · exact hacc _ rfl
        · rfl
      | cons y ys => exact absurd rfl (hrs x y ys)

theorem ctor_isSome (scores : List Int) (rs : List Nat) :
    (SnakeGame.ctor scores rs).isSome =
      (SnakeGame.generateFood
        { direction := DIR_RIGHT, paused := false, topScores := scores,
          snake := [(0, 0)], food := (0, 0), poisonFood := (0, 0), score := 0 } rs).isSome := by
  unfold SnakeGame.ctor
  simp only []
  split
  · rename_i h
    rw [h]
  · rename_i g1 rest h
    rw [h]
    rfl

/-- C21. The poison rejection loop never rejects.  In an eating tick (unpaused,
next head off the snake and equal to the food), once `generateFood` has returned
the state `g2`, the food of `g2` is not on its snake; so `generatePoisonFood`
in `g2` returns after one position drawn (two calls of `rand()`), whatever the
position is, and the tick returns with that position as poison food.  The same
holds in every state whose food is not a segment of the snake: the first
position drawn is accepted, be it on the snake or the food cell. -/
theorem poison_loop_never_rejects (t : SnakeGame) (back : Position) (rs : List Nat)
    (g2 : SnakeGame) (rs2 : List Nat)
    (hp : t.paused = false) (hback : t.snake.getLast? = some back)
    (hself : t.getNextHead back t.direction ∉ t.snake)
    (hfood : t.getNextHead back t.direction = t.food)
    (hgen : t.scored.generateFood rs = some (g2, rs2)) :
    g2.food ∉ g2.snake ∧
    (∀ (a b : Nat) (rest : List Nat),
      g2.generatePoisonFood (a :: b :: rest) =
        some ({ g2 with poisonFood :=
                  (Int.tmod (a : Int) BOARD_SIZE, Int.tmod (b : Int) BOARD_SIZE) }, rest)) ∧
    (∀ (r a b : Nat) (rest : List Nat), rs2 = r :: a :: b :: rest →
      Int.tmod (r : Int) POISON_CHANCE = 0 →
      t.updateGame rs =
        Tick.returned
          { g2 with
              poisonFood := (Int.tmod (a : Int) BOARD_SIZE, Int.tmod (b : Int) BOARD_SIZE),
              snake := g2.snake ++ [t.getNextHead back t.direction] } rest) ∧
    (∀ (g : SnakeGame) (a b : Nat) (rest : List Nat), g.food ∉ g.snake →
      g.generatePoisonFood (a :: b :: rest) =
        some ({ g with poisonFood :=
                  (Int.tmod (a : Int) BOARD_SIZE, Int.tmod (b : Int) BOARD_SIZE) }, rest)) := by
  obtain ⟨e2, hoff, _⟩ := generateFood_spec t.scored rs g2 rs2 hgen
  have hs2 : g2.snake = t.snake := by rw [e2]; rfl
  have hoff2 : g2.food ∉ g2.snake := by rw [hs2]; exact hoff
  refine ⟨hoff2, ?_, ?_, ?_⟩
  · intro a b rest
    exact generatePoisonFood_accept g2 a b rest hoff2
  · intro r a b rest hrs hr
    have hgen' : SnakeGame.generateFood
        { t with score := sizeToInt (t.snake.length * 10) } rs = some (g2, rs2) := hgen
    unfold SnakeGame.updateGame
    rw [if_neg (by simp [hp])]
    simp only [hback]
    rw [if_neg hself, if_pos hfood, hgen', hrs]
    simp only []
    rw [if_pos hr, generatePoisonFood_accept g2 a b rest hoff2]
  · intro g a b rest h
    exact generatePoisonFood_accept g a b rest h

theorem poison_loop_never_rejects_witness :
    afterFoodDrawn.food ∉ afterFoodDrawn.snake ∧
    twoSegments.updateGame [5, 5, 0, 0, 0] =
      Tick.returned
        { afterFoodDrawn with poisonFood := (0, 0), snake := [(0, 0), (0, 1), (0, 2)] } [] ∧
    twoSegments.updateGame [5, 5, 0, 5, 5] =
      Tick.returned
        { afterFoodDrawn with poisonFood := (5, 5), snake := [(0, 0), (0, 1), (0, 2)] } [] :=
  ⟨(poison_loop_never_rejects twoSegments (0, 1) [5, 5, 0, 0, 0] afterFoodDrawn [0, 0, 0]
      rfl rfl (by decide) (by decide) (by decide)).1,
   (poison_loop_never_rejects twoSegments (0, 1) [5, 5, 0, 0, 0] afterFoodDrawn [0, 0, 0]
      rfl rfl (by decide) (by decide) (by decide)).2.2.1 0 0 0 [] rfl (by decide),
   (poison_loop_never_rejects twoSegments (0, 1) [5, 5, 0, 5, 5] afterFoodDrawn [0, 5, 5]
      rfl rfl (by decide) (by decide) (by decide)).2.2.1 0 5 5 [] rfl (by decide)⟩

/-- C22. Food generation is always satisfiable.  In a state of a run in which a
tick invokes `generateFood` (unpaused, next head off the snake and equal to the
food), the snake tested consists of distinct cells and has at most
`BOARD_SIZE * BOARD_SIZE - 1 = 99` of them; the next head is a cell of the board
that is off the snake; whatever has been drawn so far, the rejection loop returns
on some further draws; and there are draws on which the tick returns.  In the
constructor the snake tested is `[(0, 0)]`, and there too the loop returns on
some further draws whatever has been drawn. -/
theorem generateFood_satisfiable (g : SnakeGame) (back : Position) (hr : Reachable g)
    (hp : g.paused = false) (hback : g.snake.getLast? = some back)
    (hself : g.getNextHead back g.direction ∉ g.snake)
    (hfood : g.getNextHead back g.direction = g.food) :
    g.snake.Nodup ∧ g.snake.length ≤ 99 ∧
    (g.snake.length : Int) ≤ BOARD_SIZE * BOARD_SIZE - 1 ∧
    (inGrid (g.getNextHead back g.direction) ∧ g.getNextHead back g.direction ∉ g.snake) ∧
    (∀ rs : List Nat, ∃ ext, (g.scored.generateFood (rs ++ ext)).isSome = true) ∧
    (∃ a b : Nat, ∀ (c d e : Nat) (rest : List Nat),
      ∃ g' rest', g.updateGame (a :: b :: c :: d :: e :: rest) = Tick.returned g' rest') ∧
    (∀ (scores : List Int) (rs : List Nat) (g0 : SnakeGame) (rest : List Nat),
      SnakeGame.ctor scores rs = some (g0, rest) → g0.snake = [(0, 0)]) ∧
    (∀ (scores : List Int) (rs : List Nat),
      ∃ ext, (SnakeGame.ctor scores (rs ++ ext)).isSome = true) := by
  obtain ⟨h1, h2, h3, h4⟩ := reachable_wellFormed g hr
  have hbm : back ∈ g.snake := List.mem_of_getLast?_eq_some hback
  have hin : inGrid (g.getNextHead back g.direction) :=
    get_next_head_inGrid back g.direction (h4 back hbm) h1
  have hlen : g.snake.length ≤ 99 :=
    length_le_of_free_cell g.snake h3 h4 _ hin hself
  refine ⟨h3, hlen, ?_, ⟨hin, hself⟩, ?_, ?_, ?_, ?_⟩
  · simp only [BOARD_SIZE]
    omega
  · intro rs
    exact generateFood_can_accept _ hin g.scored rs hself
  · refine ⟨(g.getNextHead back g.direction).1.toNat,
      (g.getNextHead back g.direction).2.toNat, ?_⟩
    intro c d e rest
    refine tick_eat_accept g back hp hback hself hfood _ _ c d e rest ?_
    rw [draw_of_cell _ hin]
    exact hself
  · intro scores rs g0 rest h
    unfold SnakeGame.ctor at h
    simp only [] at h
    split at h
    · exact absurd h (by simp)
    · rename_i g1 rest1 hgen
      simp only [Option.some.injEq, Prod.mk.injEq] at h
      obtain ⟨rfl, _⟩ := h
      obtain ⟨e, _, _⟩ := generateFood_spec _ rs g1 rest1 hgen
      rw [e]
  · intro scores rs
    have hfree : ((0, 1) : Position) ∉ [((0, 0) : Position)] := by decide
    obtain ⟨ext, he⟩ := generateFood_can_accept (0, 1) (by decide)
      { direction := DIR_RIGHT, paused := false, topScores := scores,
        snake := [(0, 0)], food := (0, 0), poisonFood := (0, 0), score := 0 } rs
      hfree
    exact ⟨ext, by rw [ctor_isSome]; exact he⟩

theorem generateFood_satisfiable_witness :
    twoSegments.snake.Nodup ∧ twoSegments.snake.length ≤ 99 ∧
    (twoSegments.snake.length : Int) ≤ BOARD_SIZE * BOARD_SIZE - 1 ∧
    (inGrid ((0, 2) : Position) ∧ ((0, 2) : Position) ∉ twoSegments.snake) ∧
    (∀ rs : List Nat, ∃ ext, (twoSegments.scored.generateFood (rs ++ ext)).isSome = true) ∧
    (∃ a b : Nat, ∀ (c d e : Nat) (rest : List Nat),
      ∃ g' rest', twoSegments.updateGame (a :: b :: c :: d :: e :: rest) =
        Tick.returned g' rest') ∧
    (∀ (scores : List Int) (rs : List Nat) (g0 : SnakeGame) (rest : List Nat),
      SnakeGame.ctor scores rs = some (g0, rest) → g0.snake = [(0, 0)]) ∧
    (∀ (scores : List Int) (rs : List Nat),
      ∃ ext, (SnakeGame.ctor scores (rs ++ ext)).isSome = true) :=
  generateFood_satisfiable twoSegments (0, 1)
    (Reachable.tick { oneSegment with food := (0, 1) } [0, 2, 1] twoSegments []
      (Reachable.init [] [0, 1] { oneSegment with food := (0, 1) } [] (by decide))
      (by decide))
    rfl rfl (by decide) (by decide)

/-! ## Tick delay in a run -/

/-- The snake of a state of a run has between 1 and 100 segments. -/
theorem reachable_length (g : SnakeGame) (h : Reachable g) :
    1 ≤ g.snake.length ∧ g.snake.length ≤ 100 := by
  obtain ⟨_, h2, h3, h4⟩ := reachable_wellFormed g h
  exact ⟨List.length_pos.2 h2, length_le_of_nodup_inGrid g.snake h3 h4⟩

/-- C13. Tick delay: in every state of a run, with `n` the length of the snake
(`n ≥ 1`), `calculateDelay` returns `max(100, 500 - (n div 10) * 50)` with
integer division: 500 for `n` in 1..9, 450 for 10..19, `500 - 50 k` for
`n div 10 = k ≤ 8`, exactly 100 for every `n ≥ 80`; it is never below 100 and
does not increase with `n`. -/
theorem calculateDelay_steps (g : SnakeGame) (n : Nat) (hr : Reachable g)
    (hn : g.snake.length = n) :
    1 ≤ n ∧
    g.calculateDelay = max 100 (500 - ((n / 10 : Nat) : Int) * 50) ∧
    (n ≤ 9 → g.calculateDelay = 500) ∧
    (10 ≤ n → n ≤ 19 → g.calculateDelay = 450) ∧
    (∀ k : Nat, k ≤ 8 → n / 10 = k → g.calculateDelay = 500 - 50 * (k : Int)) ∧
    (80 ≤ n → g.calculateDelay = 100) ∧
    100 ≤ g.calculateDelay ∧
    (∀ g2 : SnakeGame, Reachable g2 → n ≤ g2.snake.length →
      g2.calculateDelay ≤ g.calculateDelay) := by
  subst hn
  have hl := reachable_length g hr
  have e := calculateDelay_eq g (by omega)
  refine ⟨hl.1, e, ?_, ?_, ?_, ?_, ?_, ?_⟩
  · intro h; rw [e]; omega
  · intro h h'; rw [e]; omega
  · intro k hk h; rw [e]; omega
  · intro h; rw [e]; omega
  · rw [e]; omega
  · intro g2 hr2 h
    have hl2 := reachable_length g2 hr2
    rw [e, calculateDelay_eq g2 (by omega)]
    omega

theorem calculateDelay_steps_witness :
    1 ≤ 1 ∧
    oneSegment.calculateDelay = max 100 (500 - ((1 / 10 : Nat) : Int) * 50) ∧
    (1 ≤ 9 → oneSegment.calculateDelay = 500) ∧
    (10 ≤ 1 → 1 ≤ 19 → oneSegment.calculateDelay = 450) ∧
    (∀ k : Nat, k ≤ 8 → 1 / 10 = k → oneSegment.calculateDelay = 500 - 50 * (k : Int)) ∧
    (80 ≤ 1 → oneSegment.calculateDelay = 100) ∧
    100 ≤ oneSegment.calculateDelay ∧
    (∀ g2 : SnakeGame, Reachable g2 → 1 ≤ g2.snake.length →
      g2.calculateDelay ≤ oneSegment.calculateDelay) :=
  calculateDelay_steps oneSegment 1 (Reachable.init [] [5, 5] oneSegment [] (by decide)) rfl

/-! ## Reading a file of tokens -/

